import Mathlib

/-!
Verification of the casadi NLP-solver derivative manager and the FlatOCP
structural pipeline (shallow embedding of
src/casadi/core/function/nlp_solver_internal.cpp and
src/optimal_control/flat_ocp_internal.cpp).
-/

namespace Casadi

/-! ### Numeric values

Doubles appear in this code only through exact comparisons with `inf`,
`-inf`, `0` and NaN, and through `fabs`/`max`; we model them as extended
rationals together with a NaN element, with the exact IEEE comparison
semantics (all comparisons involving NaN are false).  No rounding is
involved in any claim. -/

inductive FVal where
  | nan : FVal
  | pinf : FVal
  | ninf : FVal
  | fin : ℚ → FVal
deriving DecidableEq, Repr

/-- C `isnan`. -/
def isnan : FVal → Bool
  | .nan => true
  | _ => false

/-- IEEE `<` on doubles (false whenever NaN is involved). -/
def flt : FVal → FVal → Bool
  | .nan, _ => false
  | _, .nan => false
  | .pinf, _ => false
  | _, .pinf => true
  | .ninf, .ninf => false
  | .ninf, _ => true
  | _, .ninf => false
  | .fin a, .fin b => decide (a < b)

/-- IEEE `<=` on doubles. -/
def fle (a b : FVal) : Bool := !(isnan a) && !(isnan b) && !(flt b a)

/-- IEEE `>` on doubles. -/
def fgt (a b : FVal) : Bool := flt b a

/-- IEEE `==` on doubles (false whenever NaN is involved). -/
def feq (a b : FVal) : Bool := !(isnan a) && !(isnan b) && decide (a = b)

/-- C `fabs`. -/
def fabs : FVal → FVal
  | .nan => .nan
  | .pinf => .pinf
  | .ninf => .pinf
  | .fin q => .fin |q|

/-- C++ `std::max(a, b)`, which is `(a < b) ? b : a`. -/
def fmax (a b : FVal) : FVal := if flt a b then b else a

/-! ### Symbolic expressions

The SX scalar expression nodes actually produced by the code paths under
verification: symbols, numeric constants and the four binary arithmetic
operations.  Expressions are immutable trees; substitution produces new
trees. -/

inductive SX where
  | sym : String → SX
  | cnst : FVal → SX
  | add : SX → SX → SX
  | sub : SX → SX → SX
  | mul : SX → SX → SX
  | div : SX → SX → SX
deriving DecidableEq, Repr

/-- Whether the symbol named `n` occurs anywhere in the expression. -/
def hasSym (n : String) : SX → Bool
  | .sym m => decide (m = n)
  | .cnst _ => false
  | .add a b => hasSym n a || hasSym n b
  | .sub a b => hasSym n a || hasSym n b
  | .mul a b => hasSym n a || hasSym n b
  | .div a b => hasSym n a || hasSym n b

/-- Lookup of a symbol name in a substitution map (first hit wins). -/
def lookupSub : List (String × SX) → String → Option SX
  | [], _ => none
  | (v, e) :: rest, n => if n = v then some e else lookupSub rest n

/-- Simultaneous substitution: every symbol leaf that matches an entry of
the map is replaced by the corresponding expression; replacement
expressions are not re-traversed. -/
def substSX (m : List (String × SX)) : SX → SX
  | .sym n =>
    match lookupSub m n with
    | some e => e
    | none => .sym n
  | .cnst q => .cnst q
  | .add a b => .add (substSX m a) (substSX m b)
  | .sub a b => .sub (substSX m a) (substSX m b)
  | .mul a b => .mul (substSX m a) (substSX m b)
  | .div a b => .div (substSX m a) (substSX m b)

/-- Pair up a list of symbolic variables with their replacement
expressions, keeping only symbol nodes (casadi `substitute` requires the
first argument to be purely symbolic). -/
def toSubstMap : List SX → List SX → List (String × SX)
  | .sym n :: vs, e :: es => (n, e) :: toSubstMap vs es
  | _ :: vs, _ :: es => toSubstMap vs es
  | _, _ => []

/-- casadi `substitute(eqs, v, v_old)` applied to a list of expressions. -/
def substitute (eqs vs es : List SX) : List SX := eqs.map (substSX (toSubstMap vs es))

/-! ### Variables and the FlatOCPInternal state

`Variable` carries the fields read by the passes under verification.  The
`Variability`/`Causality` enumerations come from the variable header
(declared outside src/); the constructors beyond the ones named in
flat_ocp_internal.cpp (`DISCRETE`, `OUTPUT`) are the remaining members of
the modelica-style enumeration and are what an unrecognized
(variability, causality) combination is built from. -/

inductive Variability where
  | CONSTANT : Variability
  | PARAMETER : Variability
  | DISCRETE : Variability
  | CONTINUOUS : Variability
deriving DecidableEq, Repr

inductive Causality where
  | INPUT : Causality
  | OUTPUT : Causality
  | INTERNAL : Causality
deriving DecidableEq, Repr

structure Variable where
  name : String
  variability : Variability
  causality : Causality
  free : Bool
  nominal : ℚ
  start : ℚ
deriving DecidableEq, Repr

/-- The symbolic expression of the variable (casadi `var(v)`). -/
def varSX (v : Variable) : SX := .sym v.name

/-- The symbolic time derivative of the variable (casadi `der(v)`); the
derivative symbol is distinct from every plain variable symbol. -/
def derSX (v : Variable) : SX := .sym ("der_" ++ v.name)

def varsSX (vs : List Variable) : List SX := vs.map varSX

def dersSX (vs : List Variable) : List SX := vs.map derSX

/-- The mutable state of FlatOCPInternal: the variable map (in its
iteration order), the role buckets, the equation sets, and the two
scaling flags. -/
structure FlatOCPInternal where
  varmap_ : List (String × Variable)
  t_ : SX
  x_ : List Variable
  xd_ : List Variable
  xa_ : List Variable
  u_ : List Variable
  p_ : List Variable
  y_ : List Variable
  dep_ : List SX
  dae_ : List SX
  ode_ : List SX
  alg_ : List SX
  quad_ : List SX
  initial_ : List SX
  path_ : List SX
  mterm_ : List SX
  lterm_ : List SX
  scaled_variables_ : Bool
  scaled_equations_ : Bool
deriving DecidableEq, Repr

/-- An all-empty state, convenient for building concrete instances. -/
def emptyOCP : FlatOCPInternal where
  varmap_ := []
  t_ := .sym "t"
  x_ := []
  xd_ := []
  xa_ := []
  u_ := []
  p_ := []
  y_ := []
  dep_ := []
  dae_ := []
  ode_ := []
  alg_ := []
  quad_ := []
  initial_ := []
  path_ := []
  mterm_ := []
  lterm_ := []
  scaled_variables_ := false
  scaled_equations_ := false

/-- FlatOCPInternal::eliminateDependent: substitute every dependent
variable symbol (`var(y_)`) by its binding expression (`dep_`)
simultaneously in the eight equation sets.  The boolean parameter of the
C++ function is unused in its body. -/
def eliminateDependent (s : FlatOCPInternal) : FlatOCPInternal :=
  let v := varsSX s.y_
  let v_old := s.dep_
  { s with
    dae_ := substitute s.dae_ v v_old
    ode_ := substitute s.ode_ v v_old
    alg_ := substitute s.alg_ v v_old
    quad_ := substitute s.quad_ v v_old
    initial_ := substitute s.initial_ v v_old
    path_ := substitute s.path_ v v_old
    mterm_ := substitute s.mterm_ v v_old
    lterm_ := substitute s.lterm_ v v_old }

/-! ### FlatOCPInternal::sortType -/

/-- Where the classification if-chain of sortType sends a variable:
into one of the buckets (`px` = implicit state `x_`, `pu` = input `u_`,
`pp` = parameter `p_`, `py` = dependent `y_`/`dep_`), past the whole
chain without a push (`pskip`), or into the `casadi_assert(0)` branch
(`perr`). -/
inductive Placement where
  | px : Placement
  | pu : Placement
  | pp : Placement
  | py : Placement
  | pskip : Placement
  | perr : Placement
deriving DecidableEq, Repr

/-- The if-else chain over (variability, causality) in sortType. -/
def classify (v : Variable) : Placement :=
  match v.variability with
  | .PARAMETER => if v.free then .pp else .perr
  | .CONTINUOUS =>
    match v.causality with
    | .INTERNAL => .px
    | .INPUT => .pu
    | _ => .pskip
  | .CONSTANT => .py
  | _ => .pskip

/-- The per-role lists filled by the sortType loop. -/
structure SortBuckets where
  bx : List Variable
  bu : List Variable
  bp : List Variable
  by2 : List Variable
  bdep : List SX
deriving DecidableEq, Repr

def addTo (pl : Placement) (v : Variable) (b : SortBuckets) : SortBuckets :=
  match pl with
  | .px => { b with bx := v :: b.bx }
  | .pu => { b with bu := v :: b.bu }
  | .pp => { b with bp := v :: b.bp }
  | .py => { b with by2 := v :: b.by2, bdep := .cnst (.fin v.nominal) :: b.bdep }
  | _ => b

/-- The loop over `varmap_`: variables marked as dependent (temp flag,
i.e. members of `y_` at entry) are skipped; the rest go through the
classification chain, a `perr` outcome raising the fatal
`casadi_assert(0)` immediately. -/
def sortTypeLoop (dep : List String) : List (String × Variable) → Except String SortBuckets
  | [] => .ok ⟨[], [], [], [], []⟩
  | (_, v) :: rest =>
    if dep.contains v.name then sortTypeLoop dep rest
    else if classify v = .perr then .error "casadi_assert(0)"
    else
      match sortTypeLoop dep rest with
      | .error e => .error e
      | .ok b => .ok (addTo (classify v) v b)

/-- FlatOCPInternal::sortType: clears `x_`, `xd_`, `xa_`, `u_`, `p_`,
then classifies every non-dependent variable of `varmap_`; constants are
appended to the existing `y_`/`dep_`. -/
def sortType (s : FlatOCPInternal) : Except String FlatOCPInternal :=
  match sortTypeLoop (s.y_.map (fun v => v.name)) s.varmap_ with
  | .error e => .error e
  | .ok b =>
    .ok { s with
      x_ := b.bx
      xd_ := []
      xa_ := []
      u_ := b.bu
      p_ := b.bp
      y_ := s.y_ ++ b.by2
      dep_ := s.dep_ ++ b.bdep }

/-! ### FlatOCPInternal::scaleVariables -/

/-- The stacked variable vector `v = [t; x; der(x); xd; xa; p; u]` of
scaleVariables. -/
def scaleVariablesV (s : FlatOCPInternal) : List SX :=
  [s.t_] ++ varsSX s.x_ ++ dersSX s.x_ ++ varsSX s.xd_ ++ varsSX s.xa_
    ++ varsSX s.p_ ++ varsSX s.u_

/-- The nominal-scaled vector `v_old = [t*1; x*x_n; der(x)*x_n; xd*xd_n;
xa*xa_n; p*p_n; u*u_n]` of scaleVariables. -/
def scaleVariablesVOld (s : FlatOCPInternal) : List SX :=
  [SX.mul s.t_ (.cnst (.fin 1))]
    ++ s.x_.map (fun v => SX.mul (varSX v) (.cnst (.fin v.nominal)))
    ++ s.x_.map (fun v => SX.mul (derSX v) (.cnst (.fin v.nominal)))
    ++ s.xd_.map (fun v => SX.mul (varSX v) (.cnst (.fin v.nominal)))
    ++ s.xa_.map (fun v => SX.mul (varSX v) (.cnst (.fin v.nominal)))
    ++ s.p_.map (fun v => SX.mul (varSX v) (.cnst (.fin v.nominal)))
    ++ s.u_.map (fun v => SX.mul (varSX v) (.cnst (.fin v.nominal)))

/-- FlatOCPInternal::scaleVariables: asserts the variables are not yet
scaled, substitutes the nominal-scaled variables into `dae_`,
`initial_`, `path_`, `mterm_` and `lterm_` (the substitutions of `ode_`,
`alg_`, `quad_` and `dep_` are commented out in the source) and raises
the scaled-variables flag. -/
def scaleVariables (s : FlatOCPInternal) : Except String FlatOCPInternal :=
  if s.scaled_variables_ then .error "casadi_assert(!scaled_variables_)"
  else
    let v := scaleVariablesV s
    let v_old := scaleVariablesVOld s
    .ok { s with
      dae_ := substitute s.dae_ v v_old
      initial_ := substitute s.initial_ v v_old
      path_ := substitute s.path_ v v_old
      mterm_ := substitute s.mterm_ v v_old
      lterm_ := substitute s.lterm_ v v_old
      scaled_variables_ := true }

/-! ### FlatOCPInternal::scaleEquations -/

/-- The scale-factor accumulation over one row of the evaluated
Jacobian: `scale` starts at `0.0` and takes `max(scale, fabs(entry))`
over every entry that is not NaN. -/
def rowScaleAux : List FVal → FVal → FVal
  | [], acc => acc
  | v :: rest, acc => rowScaleAux rest (if isnan v then acc else fmax acc (fabs v))

/-- Per-row scale factor of scaleEquations: the non-NaN maximum-absolute
entry, replaced by `1` (with a console warning, reported here as the
Bool component) when that maximum is `0`. -/
def rowScale (row : List FVal) : FVal × Bool :=
  let sc := rowScaleAux row (.fin 0)
  if sc = .fin 0 then (.fin 1, true) else (sc, false)

/-- FlatOCPInternal::scaleEquations.  The numeric Jacobian `J0` is the
value, at the nominal point (time 0, start values, zero derivatives), of
the Jacobian of `dae_` with respect to the stacked variables; its
computation delegates to the symbolic/numeric function machinery outside
src/, so the evaluated rows (lists of the structurally nonzero entries
of each row) are taken as the argument here.  The function asserts the
equations are not yet scaled and the variables are scaled, returns
unchanged when `dae_` is empty, and otherwise divides every implicit
equation by its row scale factor and raises the scaled-equations
flag. -/
def scaleEquations (s : FlatOCPInternal) (J0 : List (List FVal)) : Except String FlatOCPInternal :=
  if s.scaled_equations_ then .error "casadi_assert(!scaled_equations_)"
  else if !s.scaled_variables_ then .error "casadi_assert(scaled_variables_)"
  else if s.dae_.isEmpty then .ok s
  else
    let scale := J0.map (fun row => (rowScale row).1)
    .ok { s with
      dae_ := (s.dae_.zip scale).map (fun pr => SX.div pr.1 (.cnst pr.2))
      scaled_equations_ := true }

/-! ### FlatOCPInternal::sortBLT -/

/-- Application of a permutation as done by the sortBLT loops:
`out[i] = xs[perm[i]]` for `i` below the length of `xs`. -/
def applyPerm {α : Type} (d : α) (perm : List Nat) (xs : List α) : List α :=
  (List.range xs.length).map (fun i => xs.getD (perm.getD i 0) d)

/-- `p` lists each index below `n` exactly once. -/
def isPermOf (p : List Nat) (n : Nat) : Prop :=
  p.length = n ∧ (∀ k, k < n → k ∈ p) ∧ (∀ j ∈ p, j < n) ∧ p.Nodup

instance (p : List Nat) (n : Nat) : Decidable (isPermOf p n) := by
  unfold isPermOf; infer_instance

/-- The inverse permutation: `invPerm p` sends `i` to the position of
`i` inside `p`. -/
def invPerm (p : List Nat) : List Nat :=
  (List.range p.length).map (fun i => p.indexOf i)

/-- The block index of row/column `i` for block boundaries `blocks`
(block `k` spans indices `blocks[k]` to `blocks[k+1]-1`). -/
def blockOf (blocks : List Nat) (i : Nat) : Nat :=
  (blocks.countP (fun b => decide (b ≤ i))) - 1

/-- The permuted pattern `(i,j) : (rowperm[i], colperm[j])` is a
structural nonzero of `sp` only at or below the block diagonal. -/
def permutedIsBLT (sp : List (Nat × Nat)) (rowperm colperm rowblock colblock : List Nat) : Bool :=
  (List.range rowperm.length).all (fun i =>
    (List.range colperm.length).all (fun j =>
      !(sp.contains (rowperm.getD i 0, colperm.getD j 0))
        || decide (blockOf colblock j ≤ blockOf rowblock i)))

/-- Modelled from the spec: the contract of `Sparsity::dulmageMendelsohn`
(its implementation is not under src/) — the returned row and column
permutations are genuine permutations of the equation and variable
index ranges, and applying them to the sparsity pattern yields a block
lower-triangular pattern for the returned block boundaries. -/
def dmContract (sp : List (Nat × Nat)) (n m : Nat)
    (rowperm colperm rowblock colblock : List Nat) : Prop :=
  isPermOf rowperm n ∧ isPermOf colperm m
    ∧ permutedIsBLT sp rowperm colperm rowblock colblock = true

/-- Default SX used for the (never-read) out-of-range case of the
permutation loops, matching the value-initialisation of `vector<SX>`. -/
def sxDflt : SX := .cnst (.fin 0)

/-- Default Variable for the (never-read) out-of-range case. -/
def varDflt : Variable := ⟨"", .CONTINUOUS, .INTERNAL, true, 1, 0⟩

/-- FlatOCPInternal::sortBLT, after the external Dulmage-Mendelsohn call:
the stored implicit equations are permuted by `rowperm` and the stored
variables by `colperm`, destructively (via swap) and in lockstep. -/
def sortBLT (s : FlatOCPInternal) (rowperm colperm : List Nat) : FlatOCPInternal :=
  { s with
    dae_ := applyPerm sxDflt rowperm s.dae_
    x_ := applyPerm varDflt colperm s.x_ }

/-! ### NlpSolverInternal: derivative function manager

A `Function` value is abstracted to its declared arity plus a unique
identifier distinguishing separately built objects; the member slots
`gradF_` .. `spHessLag_` hold `none` while the stored C++ `Function`
(resp. `Sparsity`) is still null. -/

structure Fn where
  nIn : Nat
  nOut : Nat
  uid : Nat
deriving DecidableEq, Repr

structure Sp where
  uid : Nat
deriving DecidableEq, Repr

/-- Fixed scheme sizes (from the NLP solver scheme headers, declared
outside src/): the NLP function has inputs (x, p) and outputs (f, g). -/
def NL_NUM_IN : Nat := 2

def NL_NUM_OUT : Nat := 2

/-- GradFInput is (x, p); GradFOutput is (grad, f, g). -/
def GRADF_NUM_IN : Nat := 2

def GRADF_NUM_OUT : Nat := 3

/-- JacGInput is (x, p); JacGOutput is (jac, f, g). -/
def JACG_NUM_IN : Nat := 2

def JACG_NUM_OUT : Nat := 3

/-- HessLagInput is (x, p, lam_f, lam_g); HessLagOutput is
(hess, f, g, grad_x, grad_p). -/
def HESSLAG_NUM_IN : Nat := 4

def HESSLAG_NUM_OUT : Nat := 5

/-- Arity of `nlp_.derivative(0, 1)` (the default Lagrangian gradient):
the NLP inputs plus one adjoint seed per NLP output, and the NLP outputs
plus one adjoint sensitivity per NLP input. -/
def GRADLAG_NUM_IN : Nat := NL_NUM_IN + NL_NUM_OUT

def GRADLAG_NUM_OUT : Nat := NL_NUM_OUT + NL_NUM_IN

/-- The NlpSolverInternal state relevant to the derivative manager: the
constraint count `ng_`, the per-kind option overrides (set through
`setOption`), the six cache slots, a counter supplying fresh identifiers
to newly built functions, and an instrumentation counter recording every
entry into one of the `get*` factory routines. -/
structure NlpState where
  ng_ : Nat
  opt_grad_f : Option Fn
  opt_jac_f : Option Fn
  opt_jac_g : Option Fn
  opt_grad_lag : Option Fn
  opt_hess_lag : Option Fn
  gradF_ : Option Fn
  jacF_ : Option Fn
  jacG_ : Option Fn
  gradLag_ : Option Fn
  hessLag_ : Option Fn
  spHessLag_ : Option Sp
  nextUid : Nat
  getterCalls : Nat
deriving DecidableEq, Repr

/-- A fresh NlpState for a problem with `ng` constraints and no option
overrides. -/
def initNlpState (ng : Nat) : NlpState where
  ng_ := ng
  opt_grad_f := none
  opt_jac_f := none
  opt_jac_g := none
  opt_grad_lag := none
  opt_hess_lag := none
  gradF_ := none
  jacF_ := none
  jacG_ := none
  gradLag_ := none
  hessLag_ := none
  spHessLag_ := none
  nextUid := 0
  getterCalls := 0

/-- Record an entry into a `get*` routine. -/
def enterGetter (s : NlpState) : NlpState := { s with getterCalls := s.getterCalls + 1 }

/-- Build a fresh function of the given arity (the default recipes
`nlp_.gradient`, `nlp_.jacobian`, `nlp_.derivative`,
`gradLag.jacobian` live outside src/; modelled from the spec, the
default recipe produces a function matching the expected scheme of its
kind). -/
def buildFn (nIn nOut : Nat) (s : NlpState) : Fn × NlpState :=
  (⟨nIn, nOut, s.nextUid⟩, { s with nextUid := s.nextUid + 1 })

/-- The pair of `casadi_assert_message` arity checks performed after a
candidate function is obtained (inputs first, then outputs). -/
def checkArity (what : String) (f : Fn) (expIn expOut : Nat) : Except String Unit :=
  if f.nIn ≠ expIn then .error ("Wrong number of inputs to the " ++ what ++ " function")
  else if f.nOut ≠ expOut then .error ("Wrong number of outputs to the " ++ what ++ " function")
  else .ok ()

/-- NlpSolverInternal::getGradF: takes the `grad_f` option if set, else
builds `nlp_.gradient(NL_X, NL_F)`, then validates the arity against the
GradF scheme. -/
def getGradF (s0 : NlpState) : Except String (Fn × NlpState) :=
  let s := enterGetter s0
  let fs :=
    match s.opt_grad_f with
    | some f => (f, s)
    | none => buildFn GRADF_NUM_IN GRADF_NUM_OUT s
  match checkArity "gradient" fs.1 GRADF_NUM_IN GRADF_NUM_OUT with
  | .error e => .error e
  | .ok _ => .ok fs

/-- NlpSolverInternal::getJacF: takes the `jac_f` option if set, else
builds `nlp_.jacobian(NL_X, NL_F)`, then validates against the GradF
scheme. -/
def getJacF (s0 : NlpState) : Except String (Fn × NlpState) :=
  let s := enterGetter s0
  let fs :=
    match s.opt_jac_f with
    | some f => (f, s)
    | none => buildFn GRADF_NUM_IN GRADF_NUM_OUT s
  match checkArity "gradient" fs.1 GRADF_NUM_IN GRADF_NUM_OUT with
  | .error e => .error e
  | .ok _ => .ok fs

/-- NlpSolverInternal::getJacG: returns a null function immediately when
there are no constraints; otherwise takes the `jac_g` option if set,
else builds `nlp_.jacobian(NL_X, NL_G)`, then validates against the JacG
scheme. -/
def getJacG (s0 : NlpState) : Except String (Option Fn × NlpState) :=
  let s := enterGetter s0
  if s.ng_ = 0 then .ok (none, s)
  else
    let fs :=
      match s.opt_jac_g with
      | some f => (f, s)
      | none => buildFn JACG_NUM_IN JACG_NUM_OUT s
    match checkArity "Jacobian" fs.1 JACG_NUM_IN JACG_NUM_OUT with
    | .error e => .error e
    | .ok _ => .ok (some fs.1, fs.2)

/-- NlpSolverInternal::getGradLag: takes the `grad_lag` option if set,
else builds `nlp_.derivative(0, 1)`.  The source performs no arity
validation here. -/
def getGradLag (s0 : NlpState) : Except String (Fn × NlpState) :=
  let s := enterGetter s0
  match s.opt_grad_lag with
  | some f => .ok (f, s)
  | none => .ok (buildFn GRADLAG_NUM_IN GRADLAG_NUM_OUT s)

/-- NlpSolverInternal::gradF (lazy accessor over the `gradF_` slot). -/
def gradF (s : NlpState) : Except String (Fn × NlpState) :=
  match s.gradF_ with
  | some f => .ok (f, s)
  | none =>
    match getGradF s with
    | .error e => .error e
    | .ok fs => .ok (fs.1, { fs.2 with gradF_ := some fs.1 })

/-- NlpSolverInternal::jacF (lazy accessor over the `jacF_` slot). -/
def jacF (s : NlpState) : Except String (Fn × NlpState) :=
  match s.jacF_ with
  | some f => .ok (f, s)
  | none =>
    match getJacF s with
    | .error e => .error e
    | .ok fs => .ok (fs.1, { fs.2 with jacF_ := some fs.1 })

/-- NlpSolverInternal::jacG (lazy accessor over the `jacG_` slot; the
getter is re-entered whenever the slot still holds a null function). -/
def jacG (s : NlpState) : Except String (Option Fn × NlpState) :=
  match s.jacG_ with
  | some f => .ok (some f, s)
  | none =>
    match getJacG s with
    | .error e => .error e
    | .ok fs => .ok (fs.1, { fs.2 with jacG_ := fs.1 })

/-- NlpSolverInternal::gradLag (lazy accessor over the `gradLag_`
slot). -/
def gradLag (s : NlpState) : Except String (Fn × NlpState) :=
  match s.gradLag_ with
  | some f => .ok (f, s)
  | none =>
    match getGradLag s with
    | .error e => .error e
    | .ok fs => .ok (fs.1, { fs.2 with gradLag_ := some fs.1 })

/-- NlpSolverInternal::getHessLag: takes the `hess_lag` option if set;
otherwise first obtains the Lagrangian gradient through its accessor
(filling that slot on first use) and differentiates it; then validates
against the HessLag scheme. -/
def getHessLag (s0 : NlpState) : Except String (Fn × NlpState) :=
  let s := enterGetter s0
  let r : Except String (Fn × NlpState) :=
    match s.opt_hess_lag with
    | some f => .ok (f, s)
    | none =>
      match gradLag s with
      | .error e => .error e
      | .ok gs => .ok (buildFn HESSLAG_NUM_IN HESSLAG_NUM_OUT gs.2)
  match r with
  | .error e => .error e
  | .ok fs =>
    match checkArity "Hessian" fs.1 HESSLAG_NUM_IN HESSLAG_NUM_OUT with
    | .error e => .error e
    | .ok _ => .ok fs

/-- NlpSolverInternal::hessLag (lazy accessor over the `hessLag_`
slot). -/
def hessLag (s : NlpState) : Except String (Fn × NlpState) :=
  match s.hessLag_ with
  | some f => .ok (f, s)
  | none =>
    match getHessLag s with
    | .error e => .error e
    | .ok fs => .ok (fs.1, { fs.2 with hessLag_ := some fs.1 })

/-- NlpSolverInternal::getSpHessLag: always goes through the Lagrangian
gradient accessor (there is no override option for the sparsity) and
derives the Hessian sparsity pattern from it. -/
def getSpHessLag (s0 : NlpState) : Except String (Sp × NlpState) :=
  let s := enterGetter s0
  match gradLag s with
  | .error e => .error e
  | .ok gs => .ok (⟨gs.2.nextUid⟩, { gs.2 with nextUid := gs.2.nextUid + 1 })

/-- NlpSolverInternal::spHessLag (lazy accessor over the `spHessLag_`
slot). -/
def spHessLag (s : NlpState) : Except String (Sp × NlpState) :=
  match s.spHessLag_ with
  | some sp => .ok (sp, s)
  | none =>
    match getSpHessLag s with
    | .error e => .error e
    | .ok ps => .ok (ps.1, { ps.2 with spHessLag_ := some ps.1 })

/-! ### NlpSolverInternal: bounds checking -/

/-- The error of checkInitialBounds: a fixed message naming the bound
group but no index. -/
inductive IllPosed where
  | xBounds : IllPosed
  | gBounds : IllPosed
deriving DecidableEq, Repr

/-- The per-index violation test of checkInitialBounds:
`lbx[i]==inf || lbx[i]>ubx[i] || ubx[i]==-inf`. -/
def boundViolated (lb ub : FVal) : Bool :=
  feq lb .pinf || fgt lb ub || feq ub .ninf

/-- NlpSolverInternal::checkInitialBounds (the fatal part; the optional
initial-guess warning is a console side effect with no further state
change).  The early-exit loops amount to an existence test over the
index range. -/
def checkInitialBounds (lbx ubx lbg ubg : List FVal) : Except IllPosed Unit :=
  if (lbx.zip ubx).any (fun pr => boundViolated pr.1 pr.2) then .error .xBounds
  else if (lbg.zip ubg).any (fun pr => boundViolated pr.1 pr.2) then .error .gBounds
  else .ok ()

/-- The error of checkInputs: carries the offending index (as the
`casadi_assert_message` text does). -/
inductive BoundViol where
  | lbxViol : Nat → BoundViol
  | lbgViol : Nat → BoundViol
deriving DecidableEq, Repr

/-- First index at which `lb[i] <= ub[i]` fails (IEEE comparison). -/
def firstViol (lb ub : List FVal) : Option Nat :=
  (List.range lb.length).find? (fun i => !(fle (lb.getD i .nan) (ub.getD i .nan)))

/-- NlpSolverInternal::checkInputs: asserts `lbx[i] <= ubx[i]` for every
index of the variable bounds, then `lbg[i] <= ubg[i]` for every index of
the constraint bounds, aborting at the first violation with a message
identifying the index. -/
def checkInputs (lbx ubx lbg ubg : List FVal) : Except BoundViol Unit :=
  match firstViol lbx ubx with
  | some i => .error (.lbxViol i)
  | none =>
    match firstViol lbg ubg with
    | some i => .error (.lbgViol i)
    | none => .ok ()

/-! ### Substitution lemmas -/

theorem lookupSub_mem {m : List (String × SX)} {n : String} {e : SX}
    (h : lookupSub m n = some e) : e ∈ m.map Prod.snd := by
  induction m with
  | nil => simp [lookupSub] at h
  | cons hd tl ih =>
    obtain ⟨v, ex⟩ := hd
    simp only [lookupSub] at h
    by_cases hv : n = v
    · simp only [if_pos hv, Option.some.injEq] at h
      simp [← h]
    · simp only [if_neg hv] at h
      exact List.mem_cons_of_mem _ (ih h)

theorem lookupSub_isSome {m : List (String × SX)} {n : String}
    (h : n ∈ m.map Prod.fst) : (lookupSub m n).isSome := by
  induction m with
  | nil => simp at h
  | cons hd tl ih =>
    obtain ⟨v, ex⟩ := hd
    simp only [List.map_cons, List.mem_cons] at h
    by_cases hv : n = v
    · simp [lookupSub, if_pos hv]
    · rcases h with h | h
      · exact absurd h hv
      · simpa [lookupSub, if_neg hv] using ih h

theorem substSX_no_sym {m : List (String × SX)} {y : String}
    (h1 : ∀ e ∈ m.map Prod.snd, hasSym y e = false)
    (h2 : (lookupSub m y).isSome) :
    ∀ e : SX, hasSym y (substSX m e) = false := by
  intro e
  induction e with
  | sym n =>
    by_cases hny : n = y
    · subst hny
      rcases Option.isSome_iff_exists.mp h2 with ⟨r, hr⟩
      simp only [substSX, hr]
      exact h1 r (lookupSub_mem hr)
    · cases hl : lookupSub m n with
      | none => simp [substSX, hl, hasSym, hny]
      | some r =>
        simp only [substSX, hl]
        exact h1 r (lookupSub_mem hl)
  | cnst q => simp [substSX, hasSym]
  | add a b iha ihb => simp [substSX, hasSym, iha, ihb]
  | sub a b iha ihb => simp [substSX, hasSym, iha, ihb]
  | mul a b iha ihb => simp [substSX, hasSym, iha, ihb]
  | div a b iha ihb => simp [substSX, hasSym, iha, ihb]

theorem toSubstMap_syms (names : List String) (es : List SX) :
    toSubstMap (names.map SX.sym) es = names.zip es := by
  induction names generalizing es with
  | nil => cases es <;> rfl
  | cons n rest ih =>
    cases es with
    | nil => rfl
    | cons e es' => simp [toSubstMap, List.zip, ih]

theorem substitute_no_sym {ys : List Variable} {deps : List SX}
    (hlen : ys.length = deps.length)
    (hdep : ∀ d ∈ deps, ∀ v ∈ ys, hasSym v.name d = false)
    (eqs : List SX) :
    ∀ e ∈ substitute eqs (varsSX ys) deps, ∀ v ∈ ys, hasSym v.name e = false := by
  intro e he v hv
  have hmap : toSubstMap (varsSX ys) deps = (ys.map Variable.name).zip deps := by
    have : varsSX ys = (ys.map Variable.name).map SX.sym := by
      simp [varsSX, varSX, List.map_map]
    rw [this, toSubstMap_syms]
  rcases List.mem_map.mp he with ⟨e0, _, he0⟩
  subst he0
  apply substSX_no_sym
  · intro d hd
    rw [hmap] at hd
    rcases List.mem_map.mp hd with ⟨pr, hpr, hsnd⟩
    have := (List.of_mem_zip hpr).2
    subst hsnd
    exact hdep _ this v hv
  · rw [hmap]
    apply lookupSub_isSome
    have hle : (ys.map Variable.name).length ≤ deps.length := by
      simpa using hlen.le
    rw [List.map_fst_zip _ _ hle]
    exact List.mem_map.mpr ⟨v, hv, rfl⟩

/-! ### Claims about eliminateDependent -/

/-- The concrete scenario of C1: a dependent variable `y` bound to
`x1 + 1` and an equation `g = y - x2`. -/
def c1Yvar : Variable := ⟨"y", .CONTINUOUS, .INTERNAL, true, 1, 0⟩

def c1State : FlatOCPInternal :=
  { emptyOCP with
    y_ := [c1Yvar]
    dep_ := [SX.add (.sym "x1") (.cnst (.fin 1))]
    alg_ := [SX.sub (.sym "y") (.sym "x2")] }

/-- C1: after eliminateDependent has run (with the postcondition of
eliminateInterdependencies in force, i.e. the dependent binding
expressions contain no dependent symbol, and with the data-model
invariant that bindings and dependent variables correspond one to one),
no expression in any of the eight equation sets contains the symbol of
any dependent variable; and on the concrete scenario, the equation
`y - x2` with `y` bound to `x1 + 1` is eliminated to `x1 + 1 - x2`. -/
theorem eliminateDependent_removes_dependent_symbols :
    (∀ s : FlatOCPInternal,
      s.y_.length = s.dep_.length →
      (∀ d ∈ s.dep_, ∀ v ∈ s.y_, hasSym v.name d = false) →
      ∀ e ∈ (eliminateDependent s).dae_ ++ (eliminateDependent s).ode_
          ++ (eliminateDependent s).alg_ ++ (eliminateDependent s).quad_
          ++ (eliminateDependent s).initial_ ++ (eliminateDependent s).path_
          ++ (eliminateDependent s).mterm_ ++ (eliminateDependent s).lterm_,
        ∀ v ∈ s.y_, hasSym v.name e = false)
    ∧ (eliminateDependent c1State).alg_
        = [SX.sub (.add (.sym "x1") (.cnst (.fin 1))) (.sym "x2")] := by
  constructor
  · intro s hlen hdep e he v hv
    simp only [eliminateDependent, List.mem_append] at he
    rcases he with ((((((he | he) | he) | he) | he) | he) | he) | he <;>
      exact substitute_no_sym hlen hdep _ e he v hv
  · decide

/-- Witness for C1 at the concrete scenario: the offending symbol `y`
does not occur in the eliminated equation. -/
theorem eliminateDependent_removes_dependent_symbols_witness :
    hasSym c1Yvar.name (SX.sub (.add (.sym "x1") (.cnst (.fin 1))) (.sym "x2")) = false :=
  eliminateDependent_removes_dependent_symbols.1 c1State (by decide) (by decide)
    (SX.sub (.add (.sym "x1") (.cnst (.fin 1))) (.sym "x2")) (by decide)
    c1Yvar (by decide)

/-! ### Claims about scaleVariables and the scaleEquations guards -/

/-- C10: scaleVariables substitutes the nominal-scaled variables into
exactly the implicit dynamic, initial, path, Mayer and Lagrange sets,
leaves the explicit ODE, algebraic, quadrature and dependent sets
unchanged, and raises the scaled-variables flag. -/
theorem scaleVariables_frame :
    ∀ (s s' : FlatOCPInternal), scaleVariables s = .ok s' →
      s'.ode_ = s.ode_ ∧ s'.alg_ = s.alg_ ∧ s'.quad_ = s.quad_ ∧ s'.dep_ = s.dep_
      ∧ s'.dae_ = substitute s.dae_ (scaleVariablesV s) (scaleVariablesVOld s)
      ∧ s'.initial_ = substitute s.initial_ (scaleVariablesV s) (scaleVariablesVOld s)
      ∧ s'.path_ = substitute s.path_ (scaleVariablesV s) (scaleVariablesVOld s)
      ∧ s'.mterm_ = substitute s.mterm_ (scaleVariablesV s) (scaleVariablesVOld s)
      ∧ s'.lterm_ = substitute s.lterm_ (scaleVariablesV s) (scaleVariablesVOld s)
      ∧ s'.scaled_variables_ = true := by
  intro s s' h
  cases hs : s.scaled_variables_ <;> rw [scaleVariables, hs] at h
  · simp only [Bool.false_eq_true, if_false, Except.ok.injEq] at h
    subst h
    exact ⟨rfl, rfl, rfl, rfl, rfl, rfl, rfl, rfl, rfl, rfl⟩
  · simp at h

/-- A concrete state exercising scaleVariables: one equation per set. -/
def c10State : FlatOCPInternal :=
  { emptyOCP with
    x_ := [⟨"x1", .CONTINUOUS, .INTERNAL, true, 2, 0⟩]
    dae_ := [SX.sym "x1"]
    ode_ := [SX.sym "o1"]
    alg_ := [SX.sym "a1"]
    quad_ := [SX.sym "q1"]
    dep_ := [SX.sym "d1"] }

def c10Res : FlatOCPInternal := (scaleVariables c10State).toOption.getD emptyOCP

/-- Witness for C10 at `c10State`. -/
theorem scaleVariables_frame_witness :
    c10Res.ode_ = c10State.ode_ ∧ c10Res.alg_ = c10State.alg_
    ∧ c10Res.quad_ = c10State.quad_ ∧ c10Res.dep_ = c10State.dep_
    ∧ c10Res.scaled_variables_ = true := by
  have H := scaleVariables_frame c10State c10Res (by rfl)
  exact ⟨H.1, H.2.1, H.2.2.1, H.2.2.2.1, H.2.2.2.2.2.2.2.2.2⟩

/-- C7: scaleEquations raises a fatal precondition error when the
variables have not been scaled yet, raises a fatal precondition error
when invoked on an already equation-scaled model, and is an immediate
no-op when the preconditions hold but there are no implicit
equations. -/
theorem scaleEquations_guards :
    ∀ (s : FlatOCPInternal) (J0 : List (List FVal)),
      (s.scaled_variables_ = false → ∃ msg, scaleEquations s J0 = .error msg)
      ∧ (s.scaled_equations_ = true →
          scaleEquations s J0 = .error "casadi_assert(!scaled_equations_)")
      ∧ (s.scaled_equations_ = false → s.scaled_variables_ = true → s.dae_ = [] →
          scaleEquations s J0 = .ok s) := by
  intro s J0
  refine ⟨?_, ?_, ?_⟩
  · intro hv
    cases he : s.scaled_equations_
    · exact ⟨"casadi_assert(scaled_variables_)", by rw [scaleEquations, he, hv]; rfl⟩
    · exact ⟨"casadi_assert(!scaled_equations_)", by rw [scaleEquations, he]; rfl⟩
  · intro he
    rw [scaleEquations, he]
    rfl
  · intro he hv hd
    rw [scaleEquations, he, hv, hd]
    rfl

/-- Witness for C7: the three guard behaviours at concrete states. -/
theorem scaleEquations_guards_witness :
    (∃ msg, scaleEquations emptyOCP [] = .error msg)
    ∧ scaleEquations { emptyOCP with scaled_equations_ := true } []
        = .error "casadi_assert(!scaled_equations_)"
    ∧ scaleEquations { emptyOCP with scaled_variables_ := true } []
        = .ok { emptyOCP with scaled_variables_ := true } :=
  ⟨(scaleEquations_guards emptyOCP []).1 rfl,
   (scaleEquations_guards { emptyOCP with scaled_equations_ := true } []).2.1 rfl,
   (scaleEquations_guards { emptyOCP with scaled_variables_ := true } []).2.2 rfl rfl rfl⟩

/-! ### Claims about the scale-factor computation of scaleEquations -/

/-- Whether the value is a finite number (neither NaN nor infinite). -/
def isFiniteVal : FVal → Bool
  | .fin _ => true
  | _ => false

/-- The row scale as C8 words it: the maximum absolute value among the
row entries that are finite, with fallback 1 (and a warning) when those
give no nonzero value. -/
def rowScaleClaimC8 (row : List FVal) : FVal × Bool :=
  let sc := rowScaleAux (row.filter isFiniteVal) (.fin 0)
  if sc = .fin 0 then (.fin 1, true) else (sc, false)

/-- The amended row scale: as C8, but over the non-NaN entries
(infinite entries participate, as in the source, which only skips
NaN). -/
def rowScaleNonNan (row : List FVal) : FVal × Bool :=
  let sc := rowScaleAux (row.filter (fun v => !isnan v)) (.fin 0)
  if sc = .fin 0 then (.fin 1, true) else (sc, false)

theorem fabs_not_nan {v : FVal} (h : isnan v = false) : isnan (fabs v) = false := by
  cases v <;> simp_all [isnan, fabs]

theorem fmax_not_nan {a b : FVal} (ha : isnan a = false) (hb : isnan b = false) :
    isnan (fmax a b) = false := by
  rw [fmax]
  split <;> assumption

theorem fle_refl {a : FVal} (h : isnan a = false) : fle a a = true := by
  cases a <;> simp_all [fle, flt, isnan]

theorem fle_of_flt {a b : FVal} (h : flt a b = true) : fle a b = true := by
  cases a <;> cases b <;> simp_all [fle, flt, isnan] <;> exact le_of_lt h

theorem fle_of_not_flt {a b : FVal} (ha : isnan a = false) (hb : isnan b = false)
    (h : flt a b = false) : fle b a = true := by
  cases a <;> cases b <;> simp_all [fle, flt, isnan]

theorem fle_fmax_left {a b : FVal} (ha : isnan a = false) (hb : isnan b = false) :
    fle a (fmax a b) = true := by
  cases h : flt a b with
  | true => rw [fmax, h, if_pos rfl]; exact fle_of_flt h
  | false =>
    rw [fmax, h]
    simp only [Bool.false_eq_true, if_false]
    exact fle_refl ha

theorem fle_fmax_right {a b : FVal} (ha : isnan a = false) (hb : isnan b = false) :
    fle b (fmax a b) = true := by
  cases h : flt a b with
  | true => rw [fmax, h, if_pos rfl]; exact fle_refl hb
  | false =>
    rw [fmax, h]
    simp only [Bool.false_eq_true, if_false]
    exact fle_of_not_flt ha hb h

theorem fle_trans {a b c : FVal} (h1 : fle a b = true) (h2 : fle b c = true) :
    fle a c = true := by
  cases a <;> cases b <;> cases c <;> simp_all [fle, flt, isnan] <;> exact le_trans h1 h2

/-- The nan-skipping accumulation of the source equals the accumulation
over the nan-filtered row. -/
theorem rowScaleAux_filter (row : List FVal) (acc : FVal) :
    rowScaleAux row acc = rowScaleAux (row.filter (fun v => !isnan v)) acc := by
  induction row generalizing acc with
  | nil => rfl
  | cons v rest ih =>
    cases hv : isnan v <;>
      simp [rowScaleAux, List.filter, hv, ih]

/-- The accumulator only grows. -/
theorem fle_rowScaleAux (row : List FVal) (acc : FVal) (hacc : isnan acc = false) :
    fle acc (rowScaleAux row acc) = true := by
  induction row generalizing acc with
  | nil => exact fle_refl hacc
  | cons v rest ih =>
    cases hv : isnan v with
    | true =>
      rw [rowScaleAux, hv, if_pos rfl]
      exact ih acc hacc
    | false =>
      rw [rowScaleAux, hv]
      simp only [Bool.false_eq_true, if_false]
      have hm : isnan (fmax acc (fabs v)) = false := fmax_not_nan hacc (fabs_not_nan hv)
      exact fle_trans (fle_fmax_left hacc (fabs_not_nan hv)) (ih _ hm)

/-- The accumulated value bounds the magnitude of every non-NaN entry. -/
theorem fle_fabs_rowScaleAux {row : List FVal} {v : FVal} (hv : v ∈ row)
    (hn : isnan v = false) (acc : FVal) (hacc : isnan acc = false) :
    fle (fabs v) (rowScaleAux row acc) = true := by
  induction row generalizing acc with
  | nil => simp at hv
  | cons w rest ih =>
    rcases List.mem_cons.mp hv with hvw | hvr
    · subst hvw
      rw [rowScaleAux, hn]
      simp only [Bool.false_eq_true, if_false]
      have hm : isnan (fmax acc (fabs v)) = false := fmax_not_nan hacc (fabs_not_nan hn)
      exact fle_trans (fle_fmax_right hacc (fabs_not_nan hn)) (fle_rowScaleAux rest _ hm)
    · cases hw : isnan w with
      | true =>
        rw [rowScaleAux, hw, if_pos rfl]
        exact ih hvr acc hacc
      | false =>
        rw [rowScaleAux, hw]
        simp only [Bool.false_eq_true, if_false]
        exact ih hvr _ (fmax_not_nan hacc (fabs_not_nan hw))

/-- The accumulated value is the accumulator or the magnitude of one of
the non-NaN entries. -/
theorem rowScaleAux_attained (row : List FVal) (acc : FVal) :
    rowScaleAux row acc = acc
      ∨ rowScaleAux row acc ∈ (row.filter (fun v => !isnan v)).map fabs := by
  induction row generalizing acc with
  | nil => exact Or.inl rfl
  | cons v rest ih =>
    cases hv : isnan v with
    | true =>
      rw [rowScaleAux, hv, if_pos rfl]
      rcases ih acc with h | h
      · exact Or.inl h
      · right; simpa [List.filter, hv] using h
    | false =>
      rw [rowScaleAux, hv]
      simp only [Bool.false_eq_true, if_false]
      rcases ih (fmax acc (fabs v)) with h | h
      · rw [h, fmax]
        split
        · right; simp [List.filter, hv]
        · exact Or.inl rfl
      · right
        simp only [List.filter, hv, Bool.not_false, List.map_cons, List.mem_cons]
        exact Or.inr h

/-- C8 counterexample: a row whose only entry is `+inf` has no finite
nonzero value, so the claim as stated demands scale 1 with a warning;
the source skips only NaN, keeps the infinite entry, and divides the
equation by `+inf` with no warning. -/
theorem scaleEquations_infinite_entry_cex :
    rowScale [FVal.pinf] = (FVal.pinf, false)
    ∧ rowScaleClaimC8 [FVal.pinf] = (FVal.fin 1, true)
    ∧ (scaleEquations
        { emptyOCP with scaled_variables_ := true, dae_ := [SX.sym "e0"] }
        [[FVal.pinf]]).map (fun s => s.dae_)
      = .ok [SX.div (.sym "e0") (.cnst .pinf)]
    ∧ FVal.pinf ≠ FVal.fin 1 := by
  refine ⟨by decide, by decide, by rfl, by decide⟩

/-- C8 amended: the per-row scale factor is the maximum absolute value
over the row's non-NaN entries (infinite entries included): it equals
the accumulation over the nan-filtered row, bounds the magnitude of
every non-NaN entry, and when no warning is issued it is attained by
some non-NaN entry and is nonzero; a row whose non-NaN entries give
only zero gets scale 1 with a warning; and every implicit equation is
divided by its row's scale factor. -/
theorem scaleEquations_row_scale :
    (∀ row, rowScale row = rowScaleNonNan row)
    ∧ (∀ row v, v ∈ row → isnan v = false →
        fle (fabs v) (rowScaleAux row (.fin 0)) = true)
    ∧ (∀ row, (rowScale row).2 = false →
        (rowScale row).1 ∈ (row.filter (fun v => !isnan v)).map fabs
        ∧ (rowScale row).1 ≠ .fin 0)
    ∧ (∀ row, (rowScale row).2 = true →
        (rowScale row).1 = .fin 1 ∧ rowScaleAux row (.fin 0) = .fin 0)
    ∧ (∀ s J0 s', scaleEquations s J0 = .ok s' → s.dae_ ≠ [] →
        s'.dae_ = (s.dae_.zip (J0.map (fun row => (rowScale row).1))).map
            (fun pr => SX.div pr.1 (.cnst pr.2))
        ∧ s'.scaled_equations_ = true) := by
  refine ⟨?_, ?_, ?_, ?_, ?_⟩
  · intro row
    rw [rowScale, rowScaleNonNan, rowScaleAux_filter]
  · intro row v hv hn
    exact fle_fabs_rowScaleAux hv hn _ rfl
  · intro row hw
    rw [rowScale] at hw ⊢
    by_cases h0 : rowScaleAux row (.fin 0) = .fin 0
    · rw [if_pos h0] at hw
      simp at hw
    · rw [if_neg h0]
      rcases rowScaleAux_attained row (.fin 0) with h | h
      · exact absurd h h0
      · exact ⟨h, h0⟩
  · intro row hw
    rw [rowScale] at hw ⊢
    by_cases h0 : rowScaleAux row (.fin 0) = .fin 0
    · rw [if_pos h0]
      exact ⟨rfl, h0⟩
    · rw [if_neg h0] at hw
      simp at hw
  · intro s J0 s' h hne
    cases he : s.scaled_equations_ <;> rw [scaleEquations, he] at h
    · cases hv : s.scaled_variables_ <;> rw [hv] at h
      · simp at h
      · have hd : s.dae_.isEmpty = false := by
          cases hdd : s.dae_ with
          | nil => exact absurd hdd hne
          | cons a l => simp
        simp only [Bool.not_true, Bool.false_eq_true, if_false, hd, Except.ok.injEq] at h
        subst h
        exact ⟨rfl, rfl⟩
    · simp at h

/-- Input state for the C8 witness. -/
def c8State : FlatOCPInternal :=
  { emptyOCP with scaled_variables_ := true, dae_ := [SX.sym "e0"] }

/-- The row of the evaluated Jacobian used by the C8 witness. -/
def c8Row : List FVal := [FVal.nan, FVal.fin 2, FVal.fin (-3)]

/-- Result state of the C8 witness run. -/
def c8Res : FlatOCPInternal := (scaleEquations c8State [c8Row]).toOption.getD emptyOCP

/-- Witness for C8 (amended): a row with a NaN, a 2 and a -3 gets scale
3, and the stored equation is divided by it. -/
theorem scaleEquations_row_scale_witness :
    rowScale c8Row = rowScaleNonNan c8Row
    ∧ fle (fabs (FVal.fin 2)) (rowScaleAux c8Row (.fin 0)) = true
    ∧ c8Res.dae_ = (c8State.dae_.zip ([c8Row].map (fun row => (rowScale row).1))).map
        (fun pr => SX.div pr.1 (.cnst pr.2))
    ∧ c8Res.scaled_equations_ = true := by
  refine ⟨scaleEquations_row_scale.1 _,
    scaleEquations_row_scale.2.1 c8Row _ (by decide) (by decide), ?_, ?_⟩
  · exact (scaleEquations_row_scale.2.2.2.2 c8State [c8Row] c8Res (by rfl) (by decide)).1
  · exact (scaleEquations_row_scale.2.2.2.2 c8State [c8Row] c8Res (by rfl) (by decide)).2

/-! ### Claims about sortType -/

def isError {ε α : Type} : Except ε α → Bool
  | .error _ => true
  | .ok _ => false

/-- On success, the buckets filled by the sortType loop are exactly the
filters of the variable list by the classification outcome. -/
theorem sortTypeLoop_ok_buckets (dep : List String) :
    ∀ (l : List (String × Variable)) (b : SortBuckets),
    sortTypeLoop dep l = .ok b →
    b.bx = (l.map Prod.snd).filter (fun v => !dep.contains v.name && decide (classify v = .px))
    ∧ b.bu = (l.map Prod.snd).filter (fun v => !dep.contains v.name && decide (classify v = .pu))
    ∧ b.bp = (l.map Prod.snd).filter (fun v => !dep.contains v.name && decide (classify v = .pp))
    ∧ b.by2 = (l.map Prod.snd).filter (fun v => !dep.contains v.name && decide (classify v = .py))
    ∧ b.bdep = ((l.map Prod.snd).filter
        (fun v => !dep.contains v.name && decide (classify v = .py))).map
        (fun v => SX.cnst (.fin v.nominal)) := by
  intro l
  induction l with
  | nil =>
    intro b h
    rw [sortTypeLoop] at h
    cases h
    exact ⟨rfl, rfl, rfl, rfl, rfl⟩
  | cons hd tl ih =>
    intro b h
    obtain ⟨n, v⟩ := hd
    rw [sortTypeLoop] at h
    by_cases hdep : dep.contains v.name = true
    · rw [if_pos hdep] at h
      have hmem : v.name ∈ dep := by simpa using hdep
      have H := ih b h
      refine ⟨?_, ?_, ?_, ?_, ?_⟩ <;>
        simp [List.filter_cons, hmem, H.1, H.2.1, H.2.2.1, H.2.2.2.1, H.2.2.2.2]
    · rw [if_neg hdep] at h
      have hnmem : v.name ∉ dep := by simpa using hdep
      by_cases hcl : classify v = .perr
      · rw [if_pos hcl] at h
        cases h
      · rw [if_neg hcl] at h
        cases hrest : sortTypeLoop dep tl with
        | error e => rw [hrest] at h; cases h
        | ok b' =>
          rw [hrest] at h
          cases h
          have H := ih b' hrest
          cases hc : classify v <;>
            first
            | exact absurd rfl hcl
            | (refine ⟨?_, ?_, ?_, ?_, ?_⟩ <;>
                simp [addTo, List.filter_cons, hnmem, hc, H.1, H.2.1, H.2.2.1,
                  H.2.2.2.1, H.2.2.2.2])

/-- The sortType loop fails exactly when some unmarked variable reaches
the `casadi_assert(0)` branch of the classification chain. -/
theorem sortTypeLoop_error_iff (dep : List String) :
    ∀ l : List (String × Variable),
    isError (sortTypeLoop dep l) = true
      ↔ ∃ v ∈ l.map Prod.snd, dep.contains v.name = false ∧ classify v = .perr := by
  intro l
  induction l with
  | nil => simp [sortTypeLoop, isError]
  | cons hd tl ih =>
    obtain ⟨n, v⟩ := hd
    rw [sortTypeLoop]
    by_cases hdep : dep.contains v.name = true
    · rw [if_pos hdep, ih]
      constructor
      · intro ⟨w, hw, h1, h2⟩
        exact ⟨w, List.mem_cons_of_mem _ hw, h1, h2⟩
      · intro ⟨w, hw, h1, h2⟩
        rcases List.mem_cons.mp hw with hw | hw
        · subst hw; rw [hdep] at h1; cases h1
        · exact ⟨w, hw, h1, h2⟩
    · have hdep' : dep.contains v.name = false := by simpa using hdep
      rw [if_neg hdep]
      by_cases hcl : classify v = .perr
      · rw [if_pos hcl]
        constructor
        · intro _
          exact ⟨v, by simp, hdep', hcl⟩
        · intro _; rfl
      · rw [if_neg hcl]
        have hred : isError (match sortTypeLoop dep tl with
            | .error e => (.error e : Except String SortBuckets)
            | .ok b => .ok (addTo (classify v) v b)) = isError (sortTypeLoop dep tl) := by
          cases sortTypeLoop dep tl <;> rfl
        rw [hred, ih]
        constructor
        · intro ⟨w, hw, h1, h2⟩
          exact ⟨w, List.mem_cons_of_mem _ hw, h1, h2⟩
        · intro ⟨w, hw, h1, h2⟩
          rcases List.mem_cons.mp hw with hw | hw
          · subst hw; exact absurd h2 hcl
          · exact ⟨w, hw, h1, h2⟩

/-- The variable of the C6 counterexample: continuous variability with
output causality, a combination the classification chain does not
recognize. -/
def c6Var : Variable := ⟨"w", .CONTINUOUS, .OUTPUT, true, 1, 0⟩

def c6State : FlatOCPInternal := { emptyOCP with varmap_ := [("w", c6Var)] }

/-- C6 counterexample: a non-dependent variable with the unrecognized
combination (CONTINUOUS, OUTPUT) neither raises an error nor lands in
any role bucket — sortType silently drops it, contradicting the claim
that an unrecognized combination is a fatal configuration error. -/
theorem sortType_silent_drop_cex :
    sortType c6State = .ok c6State
    ∧ ("w", c6Var) ∈ c6State.varmap_
    ∧ (c6State.y_.map Variable.name).contains c6Var.name = false
    ∧ c6Var ∉ c6State.x_ ∧ c6Var ∉ c6State.u_ ∧ c6Var ∉ c6State.p_
    ∧ c6Var ∉ c6State.y_ := by
  refine ⟨by rfl, by decide, by decide, by decide, by decide, by decide, by decide⟩

/-- C6 amended: every non-dependent variable whose (variability,
causality) combination is recognized is placed into exactly the bucket
the chain selects (the buckets are disjoint filters of the variable
list); a non-free parameter is a fatal error; but a non-dependent
variable with an unrecognized combination (continuous with output
causality, or discrete/constant-free variability cases falling past the
chain) is silently skipped: it reaches no bucket and raises no
error. -/
theorem sortType_classification :
    (∀ s : FlatOCPInternal, ∀ pr ∈ s.varmap_,
        (s.y_.map Variable.name).contains pr.2.name = false →
        pr.2.variability = .PARAMETER → pr.2.free = false →
        isError (sortType s) = true)
    ∧ (∀ s s' : FlatOCPInternal, sortType s = .ok s' →
        s'.x_ = (s.varmap_.map Prod.snd).filter
            (fun v => !(s.y_.map Variable.name).contains v.name && decide (classify v = .px))
        ∧ s'.u_ = (s.varmap_.map Prod.snd).filter
            (fun v => !(s.y_.map Variable.name).contains v.name && decide (classify v = .pu))
        ∧ s'.p_ = (s.varmap_.map Prod.snd).filter
            (fun v => !(s.y_.map Variable.name).contains v.name && decide (classify v = .pp))
        ∧ s'.y_ = s.y_ ++ (s.varmap_.map Prod.snd).filter
            (fun v => !(s.y_.map Variable.name).contains v.name && decide (classify v = .py))
        ∧ (∀ v ∈ s'.x_, classify v = .px) ∧ (∀ v ∈ s'.u_, classify v = .pu)
        ∧ (∀ v ∈ s'.p_, classify v = .pp)) := by
  constructor
  · intro s pr hpr hdep hvar hfree
    have hcl : classify pr.2 = .perr := by
      rw [classify, hvar, if_neg (by simp [hfree])]
    have herr : isError (sortTypeLoop (s.y_.map Variable.name) s.varmap_) = true :=
      (sortTypeLoop_error_iff _ s.varmap_).mpr
        ⟨pr.2, List.mem_map.mpr ⟨pr, hpr, rfl⟩, hdep, hcl⟩
    rw [sortType]
    cases hl : sortTypeLoop (s.y_.map Variable.name) s.varmap_ with
    | error e => rfl
    | ok b => rw [hl] at herr; cases herr
  · intro s s' h
    rw [sortType] at h
    cases hl : sortTypeLoop (s.y_.map Variable.name) s.varmap_ with
    | error e => rw [hl] at h; cases h
    | ok b =>
      rw [hl] at h
      cases h
      have H := sortTypeLoop_ok_buckets _ s.varmap_ b hl
      refine ⟨H.1, H.2.1, H.2.2.1, by rw [H.2.2.2.1], ?_, ?_, ?_⟩
      · intro v hv
        rw [H.1] at hv
        have := (List.mem_filter.mp hv).2
        simpa using (Bool.and_elim_right this)
      · intro v hv
        rw [H.2.1] at hv
        have := (List.mem_filter.mp hv).2
        simpa using (Bool.and_elim_right this)
      · intro v hv
        rw [H.2.2.1] at hv
        have := (List.mem_filter.mp hv).2
        simpa using (Bool.and_elim_right this)

/-- A two-variable state for the C6 witness: a free parameter and a
continuous internal state. -/
def c6Param : Variable := ⟨"k", .PARAMETER, .INTERNAL, true, 1, 0⟩

def c6XVar : Variable := ⟨"x1", .CONTINUOUS, .INTERNAL, true, 1, 0⟩

def c6BadParam : Variable := ⟨"b", .PARAMETER, .INTERNAL, false, 1, 0⟩

def c6OkState : FlatOCPInternal :=
  { emptyOCP with varmap_ := [("k", c6Param), ("x1", c6XVar)] }

def c6ErrState : FlatOCPInternal :=
  { emptyOCP with varmap_ := [("b", c6BadParam)] }

def c6OkRes : FlatOCPInternal := (sortType c6OkState).toOption.getD emptyOCP

/-- Witness for C6 (amended): the non-free parameter is a fatal error;
on the two-variable state the parameter and the state each land in
exactly their bucket. -/
theorem sortType_classification_witness :
    isError (sortType c6ErrState) = true
    ∧ c6OkRes.x_ = [c6XVar] ∧ c6OkRes.u_ = [] ∧ c6OkRes.p_ = [c6Param]
    ∧ classify c6XVar = .px := by
  refine ⟨sortType_classification.1 c6ErrState ("b", c6BadParam) (by decide)
      (by decide) (by decide) (by decide), ?_, ?_, ?_, ?_⟩
  · have H := sortType_classification.2 c6OkState c6OkRes (by rfl)
    rw [H.1]; decide
  · have H := sortType_classification.2 c6OkState c6OkRes (by rfl)
    rw [H.2.1]; decide
  · have H := sortType_classification.2 c6OkState c6OkRes (by rfl)
    rw [H.2.2.1]; decide
  · have H := sortType_classification.2 c6OkState c6OkRes (by rfl)
    exact H.2.2.2.2.1 c6XVar (by rw [H.1]; decide)

/-! ### Claims about sortBLT -/

theorem applyPerm_length {α : Type} (d : α) (p : List Nat) (xs : List α) :
    (applyPerm d p xs).length = xs.length := by
  simp [applyPerm]

theorem applyPerm_getD {α : Type} (d : α) (p : List Nat) (xs : List α) {i : Nat}
    (h : i < xs.length) :
    (applyPerm d p xs).getD i d = xs.getD (p.getD i 0) d := by
  rw [applyPerm, List.getD_eq_getElem?_getD, List.getElem?_map, List.getElem?_range h]
  rfl

theorem invPerm_getD (p : List Nat) {i : Nat} (h : i < p.length) :
    (invPerm p).getD i 0 = p.indexOf i := by
  rw [invPerm, List.getD_eq_getElem?_getD, List.getElem?_map, List.getElem?_range h]
  rfl

/-- Applying a permutation and then its inverse restores the original
list. -/
theorem applyPerm_invPerm {α : Type} (d : α) (p : List Nat) (xs : List α)
    (hp : isPermOf p xs.length) :
    applyPerm d (invPerm p) (applyPerm d p xs) = xs := by
  obtain ⟨hlen, hsurj, _, _⟩ := hp
  have hlen2 : (applyPerm d p xs).length = xs.length := applyPerm_length d p xs
  apply List.ext_getElem (by rw [applyPerm_length, hlen2])
  intro i h1 h2
  have hi : i < xs.length := h2
  have hi2 : i < (applyPerm d p xs).length := by rw [hlen2]; exact hi
  have hip : i < p.length := by rw [hlen]; exact hi
  have hj : p.indexOf i < p.length := List.indexOf_lt_length.mpr (hsurj i hi)
  have hjx : p.indexOf i < xs.length := by rw [← hlen]; exact hj
  rw [← List.getD_eq_getElem _ d, ← List.getD_eq_getElem _ d h2,
    applyPerm_getD d (invPerm p) (applyPerm d p xs) hi2, invPerm_getD p hip,
    applyPerm_getD d p xs hjx, List.getD_eq_getElem _ _ hj, List.getElem_indexOf hj]

/-- C5: after sortBLT, equation `i` is the pre-call equation at index
`rowperm[i]` and variable `i` is the pre-call variable at `colperm[i]`
(lockstep permutation); under the Dulmage-Mendelsohn contract the
permuted Jacobian sparsity has no structural nonzero above the block
diagonal; and applying the inverse permutations to the permuted
sequences recovers the original equation and variable ordering
exactly. -/
theorem sortBLT_lockstep_blt_roundtrip :
    ∀ (s : FlatOCPInternal) (sp : List (Nat × Nat)) (rowperm colperm rowblock colblock : List Nat),
      dmContract sp s.dae_.length s.x_.length rowperm colperm rowblock colblock →
      (∀ i, i < s.dae_.length →
        (sortBLT s rowperm colperm).dae_.getD i sxDflt = s.dae_.getD (rowperm.getD i 0) sxDflt)
      ∧ (∀ i, i < s.x_.length →
        (sortBLT s rowperm colperm).x_.getD i varDflt = s.x_.getD (colperm.getD i 0) varDflt)
      ∧ permutedIsBLT sp rowperm colperm rowblock colblock = true
      ∧ applyPerm sxDflt (invPerm rowperm) (sortBLT s rowperm colperm).dae_ = s.dae_
      ∧ applyPerm varDflt (invPerm colperm) (sortBLT s rowperm colperm).x_ = s.x_ := by
  intro s sp rowperm colperm rowblock colblock hdm
  obtain ⟨hr, hc, hblt⟩ := hdm
  refine ⟨?_, ?_, hblt, ?_, ?_⟩
  · intro i hi
    exact applyPerm_getD _ _ _ hi
  · intro i hi
    exact applyPerm_getD _ _ _ hi
  · exact applyPerm_invPerm _ _ _ hr
  · exact applyPerm_invPerm _ _ _ hc

/-- A two-equation, two-variable state for the C5 witness, with the
Jacobian sparsity nonzeros (0,1), (1,0), (1,1): ordering the variables
as [v1, v0] makes the pattern lower triangular with two 1x1 blocks. -/
def c5VarA : Variable := ⟨"va", .CONTINUOUS, .INTERNAL, true, 1, 0⟩

def c5VarB : Variable := ⟨"vb", .CONTINUOUS, .INTERNAL, true, 1, 0⟩

def c5State : FlatOCPInternal :=
  { emptyOCP with dae_ := [SX.sym "e0", SX.sym "e1"], x_ := [c5VarA, c5VarB] }

def c5Sp : List (Nat × Nat) := [(0, 1), (1, 0), (1, 1)]

/-- Witness for C5 at the concrete decomposition rowperm = [0,1],
colperm = [1,0] with four singleton blocks. -/
theorem sortBLT_lockstep_blt_roundtrip_witness :
    (sortBLT c5State [0, 1] [1, 0]).x_.getD 0 varDflt = c5State.x_.getD 1 varDflt
    ∧ permutedIsBLT c5Sp [0, 1] [1, 0] [0, 1, 2] [0, 1, 2] = true
    ∧ applyPerm sxDflt (invPerm [0, 1]) (sortBLT c5State [0, 1] [1, 0]).dae_ = c5State.dae_
    ∧ applyPerm varDflt (invPerm [1, 0]) (sortBLT c5State [0, 1] [1, 0]).x_ = c5State.x_ := by
  have H := sortBLT_lockstep_blt_roundtrip c5State c5Sp [0, 1] [1, 0] [0, 1, 2] [0, 1, 2]
    (by constructor; · decide
        constructor; · decide
        decide)
  exact ⟨H.2.1 0 (by decide), H.2.2.1, H.2.2.2.1, H.2.2.2.2⟩

/-! ### Claims about the bounds checks -/

theorem firstViol_none_iff (lb ub : List FVal) :
    firstViol lb ub = none
      ↔ ∀ i, i < lb.length → fle (lb.getD i .nan) (ub.getD i .nan) = true := by
  rw [firstViol, List.find?_eq_none]
  constructor
  · intro h i hi
    have := h i (List.mem_range.mpr hi)
    simpa using this
  · intro h i hi
    have := h i (List.mem_range.mp hi)
    simpa using this

theorem firstViol_some {lb ub : List FVal} {i : Nat} (h : firstViol lb ub = some i) :
    i < lb.length ∧ fle (lb.getD i .nan) (ub.getD i .nan) = false := by
  rw [firstViol] at h
  have hp := List.find?_some h
  have hm := List.mem_of_find?_eq_some h
  exact ⟨List.mem_range.mp hm, by simpa using hp⟩

/-- C2 counterexample: with lbx = ubx = [+inf], index 0 is offending (a
lower bound equal to +inf), yet checkInputs — the only bounds check
whose error identifies an index — passes, because inf <= inf holds;
checkInitialBounds does reject the input, but with the fixed x-bounds
message that carries no index. -/
theorem checkBounds_inf_index_cex :
    boundViolated FVal.pinf FVal.pinf = true
    ∧ checkInputs [FVal.pinf] [FVal.pinf] [] [] = .ok ()
    ∧ checkInitialBounds [FVal.pinf] [FVal.pinf] [] [] = .error IllPosed.xBounds := by
  exact ⟨by decide, by rfl, by rfl⟩

/-- C2 amended: checkInitialBounds raises its fatal (index-free) error
exactly when some index has lbx[i] = +inf, lbx[i] > ubx[i] or
ubx[i] = -inf (and likewise for the constraint bounds); checkInputs
passes exactly when every index satisfies lbx[i] <= ubx[i] and
lbg[i] <= ubg[i] under IEEE comparison (so equal infinite bounds pass
it), and when it fails it names an index at which the comparison indeed
fails; neither check modifies the stored inputs. -/
theorem checkBounds_characterization :
    (∀ lbx ubx lbg ubg : List FVal,
      checkInitialBounds lbx ubx lbg ubg = .ok ()
        ↔ ((lbx.zip ubx).any (fun pr => boundViolated pr.1 pr.2) = false
            ∧ (lbg.zip ubg).any (fun pr => boundViolated pr.1 pr.2) = false))
    ∧ (∀ lbx ubx lbg ubg : List FVal,
      checkInputs lbx ubx lbg ubg = .ok ()
        ↔ ((∀ i, i < lbx.length → fle (lbx.getD i .nan) (ubx.getD i .nan) = true)
            ∧ (∀ i, i < lbg.length → fle (lbg.getD i .nan) (ubg.getD i .nan) = true)))
    ∧ (∀ (lbx ubx lbg ubg : List FVal) (i : Nat),
        checkInputs lbx ubx lbg ubg = .error (.lbxViol i) →
          i < lbx.length ∧ fle (lbx.getD i .nan) (ubx.getD i .nan) = false)
    ∧ (∀ (lbx ubx lbg ubg : List FVal) (i : Nat),
        checkInputs lbx ubx lbg ubg = .error (.lbgViol i) →
          i < lbg.length ∧ fle (lbg.getD i .nan) (ubg.getD i .nan) = false) := by
  refine ⟨?_, ?_, ?_, ?_⟩
  · intro lbx ubx lbg ubg
    rw [checkInitialBounds]
    by_cases h1 : (lbx.zip ubx).any (fun pr => boundViolated pr.1 pr.2) = true
    · rw [if_pos h1]
      constructor
      · intro h; cases h
      · intro ⟨ha, _⟩
        rw [h1] at ha; cases ha
    · have h1' : (lbx.zip ubx).any (fun pr => boundViolated pr.1 pr.2) = false :=
        Bool.not_eq_true _ ▸ Bool.of_not_eq_true h1
      rw [if_neg h1]
      by_cases h2 : (lbg.zip ubg).any (fun pr => boundViolated pr.1 pr.2) = true
      · rw [if_pos h2]
        constructor
        · intro h; cases h
        · intro ⟨_, hb⟩
          rw [h2] at hb; cases hb
      · have h2' : (lbg.zip ubg).any (fun pr => boundViolated pr.1 pr.2) = false :=
          Bool.not_eq_true _ ▸ Bool.of_not_eq_true h2
        rw [if_neg h2]
        exact ⟨fun _ => ⟨h1', h2'⟩, fun _ => rfl⟩
  · intro lbx ubx lbg ubg
    rw [checkInputs]
    cases hx : firstViol lbx ubx with
    | some i =>
      constructor
      · intro h; cases h
      · intro ⟨ha, _⟩
        rw [(firstViol_none_iff lbx ubx).mpr ha] at hx
        cases hx
    | none =>
      cases hg : firstViol lbg ubg with
      | some i =>
        constructor
        · intro h; cases h
        · intro ⟨_, hb⟩
          rw [(firstViol_none_iff lbg ubg).mpr hb] at hg
          cases hg
      | none =>
        refine ⟨fun _ => ⟨(firstViol_none_iff lbx ubx).mp hx,
          (firstViol_none_iff lbg ubg).mp hg⟩, fun _ => rfl⟩
  · intro lbx ubx lbg ubg i h
    rw [checkInputs] at h
    cases hx : firstViol lbx ubx with
    | some j =>
      rw [hx] at h
      cases h
      exact firstViol_some hx
    | none =>
      rw [hx] at h
      cases hg : firstViol lbg ubg with
      | some j => rw [hg] at h; cases h
      | none => rw [hg] at h; cases h
  · intro lbx ubx lbg ubg i h
    rw [checkInputs] at h
    cases hx : firstViol lbx ubx with
    | some j => rw [hx] at h; cases h
    | none =>
      rw [hx] at h
      cases hg : firstViol lbg ubg with
      | some j =>
        rw [hg] at h
        cases h
        exact firstViol_some hg
      | none => rw [hg] at h; cases h

/-- Witness for C2 (amended): well-posed bounds pass both checks; a
genuine lbx > ubx violation is reported by checkInputs with the index 0
at which the comparison fails. -/
theorem checkBounds_characterization_witness :
    checkInputs [FVal.fin 0] [FVal.fin 1] [] [] = .ok ()
    ∧ checkInitialBounds [FVal.fin 0] [FVal.fin 1] [] [] = .ok ()
    ∧ (0 < 1
        ∧ fle ([FVal.fin 2].getD 0 .nan) ([FVal.fin 1].getD 0 .nan) = false) := by
  refine ⟨?_, ?_, ?_⟩
  · exact (checkBounds_characterization.2.1 [FVal.fin 0] [FVal.fin 1] [] []).mpr
      ⟨by decide, by decide⟩
  · exact (checkBounds_characterization.1 [FVal.fin 0] [FVal.fin 1] [] []).mpr
      ⟨by decide, by decide⟩
  · exact checkBounds_characterization.2.2.1 [FVal.fin 2] [FVal.fin 1] [] [] 0 (by rfl)

/-! ### Claims about the derivative cache -/

/-- Fresh solver state with no constraints, making getJacG return a
null function. -/
def c3S0 : NlpState := initNlpState 0

/-- C3 counterexample: with ng = 0 the constraint-Jacobian accessor
never caches anything: the first call returns a null function and
leaves the slot null, and the second call re-enters the getter (the
getter-entry counter advances again), so consecutive calls do not
return a stored instance without re-invoking the builder routine. -/
theorem jacG_no_caching_cex :
    jacG c3S0 = .ok (none, enterGetter c3S0)
    ∧ (enterGetter c3S0).jacG_ = none
    ∧ jacG (enterGetter c3S0) = .ok (none, enterGetter (enterGetter c3S0))
    ∧ enterGetter (enterGetter c3S0) ≠ enterGetter c3S0 := by
  exact ⟨by rfl, by rfl, by rfl, by decide⟩

/-- C3 amended: for every derivative kind, whenever a call stores a
non-null function (every successful call except the constraint Jacobian
with ng = 0, which returns a null function and re-enters its getter on
every call), the slot holds the returned object and a second call
returns that identical object with the state unchanged — no rebuild, no
re-validation. -/
theorem derivative_cache_memoization :
    (∀ s f s', gradF s = .ok (f, s') → s'.gradF_ = some f ∧ gradF s' = .ok (f, s'))
    ∧ (∀ s f s', jacF s = .ok (f, s') → s'.jacF_ = some f ∧ jacF s' = .ok (f, s'))
    ∧ (∀ s r s', jacG s = .ok (r, s') → ∀ f, r = some f →
        s'.jacG_ = some f ∧ jacG s' = .ok (r, s'))
    ∧ (∀ s f s', gradLag s = .ok (f, s') → s'.gradLag_ = some f ∧ gradLag s' = .ok (f, s'))
    ∧ (∀ s f s', hessLag s = .ok (f, s') → s'.hessLag_ = some f ∧ hessLag s' = .ok (f, s'))
    ∧ (∀ s sp s', spHessLag s = .ok (sp, s') →
        s'.spHessLag_ = some sp ∧ spHessLag s' = .ok (sp, s')) := by
  refine ⟨?_, ?_, ?_, ?_, ?_, ?_⟩
  · intro s f s' h
    rw [gradF] at h
    cases hslot : s.gradF_ with
    | some f0 =>
      rw [hslot] at h
      simp only [Except.ok.injEq, Prod.mk.injEq] at h
      obtain ⟨hf, hs⟩ := h
      subst hf; subst hs
      exact ⟨hslot, by rw [gradF, hslot]⟩
    | none =>
      rw [hslot] at h
      cases hg : getGradF s with
      | error e => rw [hg] at h; cases h
      | ok fs =>
        rw [hg] at h
        simp only [Except.ok.injEq, Prod.mk.injEq] at h
        obtain ⟨hf, hs⟩ := h
        subst hf; subst hs
        exact ⟨rfl, rfl⟩
  · intro s f s' h
    rw [jacF] at h
    cases hslot : s.jacF_ with
    | some f0 =>
      rw [hslot] at h
      simp only [Except.ok.injEq, Prod.mk.injEq] at h
      obtain ⟨hf, hs⟩ := h
      subst hf; subst hs
      exact ⟨hslot, by rw [jacF, hslot]⟩
    | none =>
      rw [hslot] at h
      cases hg : getJacF s with
      | error e => rw [hg] at h; cases h
      | ok fs =>
        rw [hg] at h
        simp only [Except.ok.injEq, Prod.mk.injEq] at h
        obtain ⟨hf, hs⟩ := h
        subst hf; subst hs
        exact ⟨rfl, rfl⟩
  · intro s r s' h
    rw [jacG] at h
    cases hslot : s.jacG_ with
    | some f0 =>
      rw [hslot] at h
      simp only [Except.ok.injEq, Prod.mk.injEq] at h
      obtain ⟨hf, hs⟩ := h
      subst hs
      intro f hr
      refine ⟨hslot.trans (hf.trans hr), ?_⟩
      rw [jacG, hslot, ← hf]
    | none =>
      rw [hslot] at h
      cases hg : getJacG s with
      | error e => rw [hg] at h; cases h
      | ok fs =>
        rw [hg] at h
        simp only [Except.ok.injEq, Prod.mk.injEq] at h
        obtain ⟨hf, hs⟩ := h
        subst hf; subst hs
        intro f hr
        have hproj : ({ fs.2 with jacG_ := fs.1 } : NlpState).jacG_ = some f := hr
        refine ⟨hproj, ?_⟩
        rw [jacG, hproj, hr]
  · intro s f s' h
    rw [gradLag] at h
    cases hslot : s.gradLag_ with
    | some f0 =>
      rw [hslot] at h
      simp only [Except.ok.injEq, Prod.mk.injEq] at h
      obtain ⟨hf, hs⟩ := h
      subst hf; subst hs
      exact ⟨hslot, by rw [gradLag, hslot]⟩
    | none =>
      rw [hslot] at h
      cases hg : getGradLag s with
      | error e => rw [hg] at h; cases h
      | ok fs =>
        rw [hg] at h
        simp only [Except.ok.injEq, Prod.mk.injEq] at h
        obtain ⟨hf, hs⟩ := h
        subst hf; subst hs
        exact ⟨rfl, rfl⟩
  · intro s f s' h
    rw [hessLag] at h
    cases hslot : s.hessLag_ with
    | some f0 =>
      rw [hslot] at h
      simp only [Except.ok.injEq, Prod.mk.injEq] at h
      obtain ⟨hf, hs⟩ := h
      subst hf; subst hs
      exact ⟨hslot, by rw [hessLag, hslot]⟩
    | none =>
      rw [hslot] at h
      cases hg : getHessLag s with
      | error e => rw [hg] at h; cases h
      | ok fs =>
        rw [hg] at h
        simp only [Except.ok.injEq, Prod.mk.injEq] at h
        obtain ⟨hf, hs⟩ := h
        subst hf; subst hs
        exact ⟨rfl, rfl⟩
  · intro s sp s' h
    rw [spHessLag] at h
    cases hslot : s.spHessLag_ with
    | some sp0 =>
      rw [hslot] at h
      simp only [Except.ok.injEq, Prod.mk.injEq] at h
      obtain ⟨hf, hs⟩ := h
      subst hf; subst hs
      exact ⟨hslot, by rw [spHessLag, hslot]⟩
    | none =>
      rw [hslot] at h
      cases hg : getSpHessLag s with
      | error e => rw [hg] at h; cases h
      | ok ps =>
        rw [hg] at h
        simp only [Except.ok.injEq, Prod.mk.injEq] at h
        obtain ⟨hf, hs⟩ := h
        subst hf; subst hs
        exact ⟨rfl, rfl⟩

/-- Fresh solver state with one constraint. -/
def c3S1 : NlpState := initNlpState 1

/-- Result of one gradF call on the fresh state. -/
def c3Res : NlpState := ((gradF c3S1).toOption.map Prod.snd).getD c3S1

/-- Witness for C3 (amended): building the objective gradient on a
fresh state fills the slot and a second call leaves everything
untouched. -/
theorem derivative_cache_memoization_witness :
    c3Res.gradF_ = some ⟨GRADF_NUM_IN, GRADF_NUM_OUT, 0⟩
    ∧ gradF c3Res = .ok (⟨GRADF_NUM_IN, GRADF_NUM_OUT, 0⟩, c3Res) := by
  have H := derivative_cache_memoization.1 c3S1 ⟨GRADF_NUM_IN, GRADF_NUM_OUT, 0⟩ c3Res (by rfl)
  exact ⟨H.1, H.2⟩

/-! ### Claims about signature validation -/

theorem checkArity_error {w : String} {f : Fn} {expIn expOut : Nat}
    (h : f.nIn ≠ expIn ∨ f.nOut ≠ expOut) :
    ∃ e, checkArity w f expIn expOut = .error e := by
  rw [checkArity]
  by_cases h1 : f.nIn ≠ expIn
  · rw [if_pos h1]
    exact ⟨_, rfl⟩
  · rw [if_neg h1]
    have h2 : f.nOut ≠ expOut := by
      rcases h with h | h
      · exact absurd h h1
      · exact h
    rw [if_pos h2]
    exact ⟨_, rfl⟩

theorem checkArity_ok {w : String} {f : Fn} {expIn expOut : Nat}
    (h1 : f.nIn = expIn) (h2 : f.nOut = expOut) :
    checkArity w f expIn expOut = .ok () := by
  rw [checkArity, if_neg (fun hc => hc h1), if_neg (fun hc => hc h2)]

/-- The malformed override of the C4 counterexample: zero inputs and
zero outputs, matching no fixed scheme. -/
def c4BadFn : Fn := ⟨0, 0, 99⟩

def c4S : NlpState := { initNlpState 1 with opt_grad_lag := some c4BadFn }

/-- C4 counterexample: a user-supplied `grad_lag` override whose arity
matches no scheme is accepted verbatim by getGradLag — no fatal
signature error is raised for the Lagrangian gradient, contradicting
the claim that arity validation happens for each derivative kind
including the Lagrangian gradient. -/
theorem gradLag_no_validation_cex :
    getGradLag c4S = .ok (c4BadFn, enterGetter c4S)
    ∧ gradLag c4S = .ok (c4BadFn, { enterGetter c4S with gradLag_ := some c4BadFn })
    ∧ c4BadFn.nIn ≠ GRADLAG_NUM_IN ∧ c4BadFn.nOut ≠ GRADLAG_NUM_OUT := by
  exact ⟨by rfl, by rfl, by decide, by decide⟩

/-- C4 amended: the candidate function is validated against the fixed
expected scheme, with a fatal arity error on mismatch, for the
objective gradient, the objective Jacobian, the constraint Jacobian
(when constraints exist) and the Lagrangian Hessian — but not for the
Lagrangian gradient, whose override is accepted verbatim without any
arity check (the Hessian sparsity kind produces a sparsity pattern, not
a function, and has no arity to validate). -/
theorem derivative_signature_validation :
    (∀ s f, s.opt_grad_f = some f →
        (f.nIn ≠ GRADF_NUM_IN ∨ f.nOut ≠ GRADF_NUM_OUT) → isError (getGradF s) = true)
    ∧ (∀ s f, s.opt_grad_f = some f → f.nIn = GRADF_NUM_IN → f.nOut = GRADF_NUM_OUT →
        getGradF s = .ok (f, enterGetter s))
    ∧ (∀ s f, s.opt_jac_f = some f →
        (f.nIn ≠ GRADF_NUM_IN ∨ f.nOut ≠ GRADF_NUM_OUT) → isError (getJacF s) = true)
    ∧ (∀ s f, s.opt_jac_g = some f → s.ng_ ≠ 0 →
        (f.nIn ≠ JACG_NUM_IN ∨ f.nOut ≠ JACG_NUM_OUT) → isError (getJacG s) = true)
    ∧ (∀ s f, s.opt_hess_lag = some f →
        (f.nIn ≠ HESSLAG_NUM_IN ∨ f.nOut ≠ HESSLAG_NUM_OUT) → isError (getHessLag s) = true)
    ∧ (∀ s f, s.opt_grad_lag = some f → getGradLag s = .ok (f, enterGetter s)) := by
  refine ⟨?_, ?_, ?_, ?_, ?_, ?_⟩
  · intro s f hopt hmis
    have hopt' : (enterGetter s).opt_grad_f = some f := hopt
    obtain ⟨e, he⟩ := @checkArity_error "gradient" f GRADF_NUM_IN GRADF_NUM_OUT hmis
    simp [getGradF, hopt', he, isError]
  · intro s f hopt h1 h2
    have hopt' : (enterGetter s).opt_grad_f = some f := hopt
    simp [getGradF, hopt', @checkArity_ok "gradient" f GRADF_NUM_IN GRADF_NUM_OUT h1 h2]
  · intro s f hopt hmis
    have hopt' : (enterGetter s).opt_jac_f = some f := hopt
    obtain ⟨e, he⟩ := @checkArity_error "gradient" f GRADF_NUM_IN GRADF_NUM_OUT hmis
    simp [getJacF, hopt', he, isError]
  · intro s f hopt hng hmis
    have hopt' : (enterGetter s).opt_jac_g = some f := hopt
    have hng' : ¬((enterGetter s).ng_ = 0) := hng
    obtain ⟨e, he⟩ := @checkArity_error "Jacobian" f JACG_NUM_IN JACG_NUM_OUT hmis
    simp [getJacG, hopt', hng', he, isError]
  · intro s f hopt hmis
    have hopt' : (enterGetter s).opt_hess_lag = some f := hopt
    obtain ⟨e, he⟩ := @checkArity_error "Hessian" f HESSLAG_NUM_IN HESSLAG_NUM_OUT hmis
    simp [getHessLag, hopt', he, isError]
  · intro s f hopt
    have hopt' : (enterGetter s).opt_grad_lag = some f := hopt
    simp [getGradLag, hopt']

/-- States for the C4 witness: a bad and a good objective-gradient
override. -/
def c4S2 : NlpState := { initNlpState 1 with opt_grad_f := some ⟨0, 0, 7⟩ }

def c4S3 : NlpState :=
  { initNlpState 1 with opt_grad_f := some ⟨GRADF_NUM_IN, GRADF_NUM_OUT, 7⟩ }

/-- Witness for C4 (amended): the malformed objective-gradient override
is rejected, the well-formed one is taken verbatim, and the malformed
Lagrangian-gradient override is accepted without validation. -/
theorem derivative_signature_validation_witness :
    isError (getGradF c4S2) = true
    ∧ getGradF c4S3 = .ok (⟨GRADF_NUM_IN, GRADF_NUM_OUT, 7⟩, enterGetter c4S3)
    ∧ getGradLag c4S = .ok (c4BadFn, enterGetter c4S) :=
  ⟨derivative_signature_validation.1 c4S2 ⟨0, 0, 7⟩ rfl (Or.inl (by decide)),
   derivative_signature_validation.2.1 c4S3 ⟨GRADF_NUM_IN, GRADF_NUM_OUT, 7⟩ rfl rfl rfl,
   derivative_signature_validation.2.2.2.2.2 c4S c4BadFn rfl⟩

/-! ### Claims about cache-slot independence -/

/-- The Lagrangian-gradient accessor touches no cache slot other than
its own. -/
theorem gradLag_frame_aux {s : NlpState} {f : Fn} {s' : NlpState}
    (h : gradLag s = .ok (f, s')) :
    s'.gradF_ = s.gradF_ ∧ s'.jacF_ = s.jacF_ ∧ s'.jacG_ = s.jacG_
    ∧ s'.hessLag_ = s.hessLag_ ∧ s'.spHessLag_ = s.spHessLag_ := by
  rw [gradLag] at h
  cases hslot : s.gradLag_ with
  | some f0 =>
    rw [hslot] at h
    simp only [Except.ok.injEq, Prod.mk.injEq] at h
    obtain ⟨_, hs⟩ := h
    subst hs
    exact ⟨rfl, rfl, rfl, rfl, rfl⟩
  | none =>
    rw [hslot] at h
    cases hopt : (enterGetter s).opt_grad_lag with
    | some f1 =>
      rw [getGradLag, hopt] at h
      simp only [Except.ok.injEq, Prod.mk.injEq] at h
      obtain ⟨_, hs⟩ := h
      subst hs
      exact ⟨rfl, rfl, rfl, rfl, rfl⟩
    | none =>
      rw [getGradLag, hopt] at h
      simp only [Except.ok.injEq, Prod.mk.injEq] at h
      obtain ⟨_, hs⟩ := h
      subst hs
      exact ⟨rfl, rfl, rfl, rfl, rfl⟩

/-- Fresh solver state with one constraint, all slots empty and no
overrides. -/
def c9S0 : NlpState := initNlpState 1

/-- The state left behind by one hessLag call on the fresh state. -/
def c9Res : NlpState := ((hessLag c9S0).toOption.map Prod.snd).getD c9S0

/-- C9 counterexample: on a fresh state with no overrides, accessing
the Lagrangian Hessian also fills the Lagrangian-gradient slot (the
default recipe goes through the gradLag accessor), so the slots are not
independently lazy as claimed. -/
theorem hessLag_fills_gradLag_slot_cex :
    c9S0.gradLag_ = none
    ∧ c9Res.gradLag_ = some ⟨GRADLAG_NUM_IN, GRADLAG_NUM_OUT, 0⟩
    ∧ c9Res.gradLag_ ≠ c9S0.gradLag_ := by
  exact ⟨rfl, by rfl, by decide⟩

/-- C9 amended: each accessor stores only into its own slot — except
that building the Lagrangian Hessian without an override, and building
the Hessian sparsity, first invoke the Lagrangian-gradient accessor and
so can fill the `gradLag_` slot as well; with a `hess_lag` override the
Lagrangian-gradient slot is untouched. -/
theorem derivative_cache_frame :
    (∀ s f s', gradF s = .ok (f, s') →
        s'.jacF_ = s.jacF_ ∧ s'.jacG_ = s.jacG_ ∧ s'.gradLag_ = s.gradLag_
        ∧ s'.hessLag_ = s.hessLag_ ∧ s'.spHessLag_ = s.spHessLag_)
    ∧ (∀ s f s', jacF s = .ok (f, s') →
        s'.gradF_ = s.gradF_ ∧ s'.jacG_ = s.jacG_ ∧ s'.gradLag_ = s.gradLag_
        ∧ s'.hessLag_ = s.hessLag_ ∧ s'.spHessLag_ = s.spHessLag_)
    ∧ (∀ s r s', jacG s = .ok (r, s') →
        s'.gradF_ = s.gradF_ ∧ s'.jacF_ = s.jacF_ ∧ s'.gradLag_ = s.gradLag_
        ∧ s'.hessLag_ = s.hessLag_ ∧ s'.spHessLag_ = s.spHessLag_)
    ∧ (∀ s f s', gradLag s = .ok (f, s') →
        s'.gradF_ = s.gradF_ ∧ s'.jacF_ = s.jacF_ ∧ s'.jacG_ = s.jacG_
        ∧ s'.hessLag_ = s.hessLag_ ∧ s'.spHessLag_ = s.spHessLag_)
    ∧ (∀ s f s', hessLag s = .ok (f, s') →
        s'.gradF_ = s.gradF_ ∧ s'.jacF_ = s.jacF_ ∧ s'.jacG_ = s.jacG_
        ∧ s'.spHessLag_ = s.spHessLag_
        ∧ (∀ f0, s.opt_hess_lag = some f0 → s'.gradLag_ = s.gradLag_))
    ∧ (∀ s sp s', spHessLag s = .ok (sp, s') →
        s'.gradF_ = s.gradF_ ∧ s'.jacF_ = s.jacF_ ∧ s'.jacG_ = s.jacG_
        ∧ s'.hessLag_ = s.hessLag_) := by
  refine ⟨?_, ?_, ?_, ?_, ?_, ?_⟩
  · intro s f s' h
    rw [gradF] at h
    cases hslot : s.gradF_ with
    | some f0 =>
      rw [hslot] at h
      simp only [Except.ok.injEq, Prod.mk.injEq] at h
      obtain ⟨_, hs⟩ := h
      subst hs
      exact ⟨rfl, rfl, rfl, rfl, rfl⟩
    | none =>
      rw [hslot] at h
      cases hopt : (enterGetter s).opt_grad_f with
      | some f1 =>
        rw [getGradF, hopt] at h
        cases hchk : checkArity "gradient" f1 GRADF_NUM_IN GRADF_NUM_OUT with
        | error e => rw [hchk] at h; cases h
        | ok u =>
          rw [hchk] at h
          simp only [Except.ok.injEq, Prod.mk.injEq] at h
          obtain ⟨_, hs⟩ := h
          subst hs
          exact ⟨rfl, rfl, rfl, rfl, rfl⟩
      | none =>
        rw [getGradF, hopt] at h
        cases hchk : checkArity "gradient" (buildFn GRADF_NUM_IN GRADF_NUM_OUT
            (enterGetter s)).1 GRADF_NUM_IN GRADF_NUM_OUT with
        | error e => rw [hchk] at h; cases h
        | ok u =>
          rw [hchk] at h
          simp only [Except.ok.injEq, Prod.mk.injEq] at h
          obtain ⟨_, hs⟩ := h
          subst hs
          exact ⟨rfl, rfl, rfl, rfl, rfl⟩
  · intro s f s' h
    rw [jacF] at h
    cases hslot : s.jacF_ with
    | some f0 =>
      rw [hslot] at h
      simp only [Except.ok.injEq, Prod.mk.injEq] at h
      obtain ⟨_, hs⟩ := h
      subst hs
      exact ⟨rfl, rfl, rfl, rfl, rfl⟩
    | none =>
      rw [hslot] at h
      cases hopt : (enterGetter s).opt_jac_f with
      | some f1 =>
        rw [getJacF, hopt] at h
        cases hchk : checkArity "gradient" f1 GRADF_NUM_IN GRADF_NUM_OUT with
        | error e => rw [hchk] at h; cases h
        | ok u =>
          rw [hchk] at h
          simp only [Except.ok.injEq, Prod.mk.injEq] at h
          obtain ⟨_, hs⟩ := h
          subst hs
          exact ⟨rfl, rfl, rfl, rfl, rfl⟩
      | none =>
        rw [getJacF, hopt] at h
        cases hchk : checkArity "gradient" (buildFn GRADF_NUM_IN GRADF_NUM_OUT
            (enterGetter s)).1 GRADF_NUM_IN GRADF_NUM_OUT with
        | error e => rw [hchk] at h; cases h
        | ok u =>
          rw [hchk] at h
          simp only [Except.ok.injEq, Prod.mk.injEq] at h
          obtain ⟨_, hs⟩ := h
          subst hs
          exact ⟨rfl, rfl, rfl, rfl, rfl⟩
  · intro s r s' h
    rw [jacG] at h
    cases hslot : s.jacG_ with
    | some f0 =>
      rw [hslot] at h
      simp only [Except.ok.injEq, Prod.mk.injEq] at h
      obtain ⟨_, hs⟩ := h
      subst hs
      exact ⟨rfl, rfl, rfl, rfl, rfl⟩
    | none =>
      rw [hslot] at h
      by_cases hng : (enterGetter s).ng_ = 0
      · rw [getJacG, if_pos hng] at h
        simp only [Except.ok.injEq, Prod.mk.injEq] at h
        obtain ⟨_, hs⟩ := h
        subst hs
        refine ⟨rfl, rfl, rfl, rfl, rfl⟩
      · rw [getJacG, if_neg hng] at h
        cases hopt : (enterGetter s).opt_jac_g with
        | some f1 =>
          cases hchk : checkArity "Jacobian" f1 JACG_NUM_IN JACG_NUM_OUT with
          | error e => simp [hopt, hchk] at h
          | ok u =>
            simp only [hopt, hchk, Except.ok.injEq, Prod.mk.injEq] at h
            obtain ⟨_, hs⟩ := h
            subst hs
            exact ⟨rfl, rfl, rfl, rfl, rfl⟩
        | none =>
          have hchk : checkArity "Jacobian" (buildFn JACG_NUM_IN JACG_NUM_OUT
              (enterGetter s)).1 JACG_NUM_IN JACG_NUM_OUT = .ok () := checkArity_ok rfl rfl
          simp only [hopt, hchk, Except.ok.injEq, Prod.mk.injEq] at h
          obtain ⟨_, hs⟩ := h
          subst hs
          exact ⟨rfl, rfl, rfl, rfl, rfl⟩
  · intro s f s' h
    exact gradLag_frame_aux h
  · intro s f s' h
    rw [hessLag] at h
    cases hslot : s.hessLag_ with
    | some f0 =>
      rw [hslot] at h
      simp only [Except.ok.injEq, Prod.mk.injEq] at h
      obtain ⟨_, hs⟩ := h
      subst hs
      exact ⟨rfl, rfl, rfl, rfl, fun _ _ => rfl⟩
    | none =>
      rw [hslot] at h
      cases hopt : (enterGetter s).opt_hess_lag with
      | some f1 =>
        cases hchk : checkArity "Hessian" f1 HESSLAG_NUM_IN HESSLAG_NUM_OUT with
        | error e => simp [getHessLag, hopt, hchk] at h
        | ok u =>
          simp only [getHessLag, hopt, hchk, Except.ok.injEq, Prod.mk.injEq] at h
          obtain ⟨_, hs⟩ := h
          subst hs
          exact ⟨rfl, rfl, rfl, rfl, fun _ _ => rfl⟩
      | none =>
        cases hgl : gradLag (enterGetter s) with
        | error e => simp [getHessLag, hopt, hgl] at h
        | ok gs =>
          have HG := gradLag_frame_aux hgl
          have hchk : checkArity "Hessian" (buildFn HESSLAG_NUM_IN HESSLAG_NUM_OUT gs.2).1
              HESSLAG_NUM_IN HESSLAG_NUM_OUT = .ok () := checkArity_ok rfl rfl
          simp only [getHessLag, hopt, hgl, hchk, Except.ok.injEq, Prod.mk.injEq] at h
          obtain ⟨_, hs⟩ := h
          subst hs
          refine ⟨HG.1, HG.2.1, HG.2.2.1, HG.2.2.2.2, ?_⟩
          intro f0 hf0
          have hcontra : (enterGetter s).opt_hess_lag = some f0 := hf0
          rw [hopt] at hcontra
          cases hcontra
  · intro s sp s' h
    rw [spHessLag] at h
    cases hslot : s.spHessLag_ with
    | some sp0 =>
      rw [hslot] at h
      simp only [Except.ok.injEq, Prod.mk.injEq] at h
      obtain ⟨_, hs⟩ := h
      subst hs
      exact ⟨rfl, rfl, rfl, rfl⟩
    | none =>
      rw [hslot] at h
      rw [getSpHessLag] at h
      cases hgl : gradLag (enterGetter s) with
      | error e => rw [hgl] at h; cases h
      | ok gs =>
        rw [hgl] at h
        have HG := gradLag_frame_aux hgl
        simp only [Except.ok.injEq, Prod.mk.injEq] at h
        obtain ⟨_, hs⟩ := h
        subst hs
        exact ⟨HG.1, HG.2.1, HG.2.2.1, HG.2.2.2.1⟩

/-- A state with a hess_lag override for the C9 witness. -/
def c9OS : NlpState :=
  { initNlpState 1 with opt_hess_lag := some ⟨HESSLAG_NUM_IN, HESSLAG_NUM_OUT, 5⟩ }

def c9ORes : NlpState := ((hessLag c9OS).toOption.map Prod.snd).getD c9OS

/-- Witness for C9 (amended): with a hess_lag override, a hessLag call
leaves every other slot (including the Lagrangian-gradient slot)
unchanged. -/
theorem derivative_cache_frame_witness :
    c9ORes.gradF_ = c9OS.gradF_ ∧ c9ORes.jacF_ = c9OS.jacF_
    ∧ c9ORes.jacG_ = c9OS.jacG_ ∧ c9ORes.spHessLag_ = c9OS.spHessLag_
    ∧ c9ORes.gradLag_ = c9OS.gradLag_ := by
  have H := derivative_cache_frame.2.2.2.2.1 c9OS
    ⟨HESSLAG_NUM_IN, HESSLAG_NUM_OUT, 5⟩ c9ORes (by rfl)
  exact ⟨H.1, H.2.1, H.2.2.1, H.2.2.2.1, H.2.2.2.2 _ rfl⟩

end Casadi
